import Mathlib

set_option maxHeartbeats 1000000
set_option maxRecDepth 4000

/- Verification of the embeddings-viewer 2D projection engine: a shallow
   embedding of src/utils/seededRandom.ts and
   src/utils/algorithms/{incrementalPCA,tSNE,uMAP,projectTo2D}.ts.

   Modelling conventions for JavaScript semantics:
   - A JS number (IEEE-754 float64) is modelled by `FP`: either an exact
     finite value (`FP.fin q`, `q : ℚ`) or `FP.undef`, which conflates NaN
     and the two infinities (the code only ever tests them together, via
     `isNaN(x) || !isFinite(x)`).  Arithmetic is exact where the code's
     float arithmetic is defined; `undef` propagates the way NaN does, and
     division by zero yields `undef` (JS gives ±Infinity or NaN there,
     both of which are non-finite).
   - The library routines Math.exp, Math.sqrt, Math.log, Math.log2 and the
     general case of Math.pow are model parameters (`FloatModel`), applied
     to exact rationals.  Math.sqrt of a negative argument is NaN
     (`FP.undef`) before the parameter is consulted, and likewise
     Math.log2 of a non-positive argument is NaN or -Infinity.
   - Math.random(), which the source uses only in tSNE's non-finite reset
     path, is modelled as an external entropy stream `ext : ℕ → ℚ`
     together with a cursor counting the draws consumed so far.
   - The byte view `new Uint8Array(new Float64Array([v]).buffer)` used by
     generateSeed is a model parameter `f64b : ℚ → List ℕ` giving the 8
     bytes of the float64 bit pattern of `v`.
   - Values that the source computes only to pass to console.log (the mean
     magnitude in incrementalPCA, the post-hoc valid/NaN/Infinity counts in
     projectTo2D except where stated) do not influence any returned value
     and are modelled separately or omitted.
-/

/-- Model of a JS float64 value: `fin q` is the exact finite value `q`;
`undef` stands for NaN or ±Infinity. -/
inductive FP where
  | fin (q : ℚ)
  | undef
deriving DecidableEq

namespace FP

def add : FP → FP → FP
  | fin a, fin b => fin (a + b)
  | _, _ => undef

def mul : FP → FP → FP
  | fin a, fin b => fin (a * b)
  | _, _ => undef

def sub : FP → FP → FP
  | fin a, fin b => fin (a - b)
  | _, _ => undef

/-- JS division: division by zero gives ±Infinity or NaN, conflated into
`undef`; any operation on a non-finite operand is non-finite here. -/
def div : FP → FP → FP
  | fin a, fin b => if b = 0 then undef else fin (a / b)
  | _, _ => undef

instance : Zero FP := ⟨fin 0⟩
instance : Add FP := ⟨add⟩
instance : Mul FP := ⟨mul⟩
instance : Sub FP := ⟨sub⟩
instance : Div FP := ⟨div⟩

instance : AddCommMonoid FP where
  add_assoc a b c := by
    cases a with
    | undef => rfl
    | fin qa =>
      cases b with
      | undef => rfl
      | fin qb =>
        cases c with
        | undef => rfl
        | fin qc => exact congrArg fin (by ring)
  zero_add a := by
    cases a with
    | undef => rfl
    | fin q => exact congrArg fin (by ring)
  add_zero a := by
    cases a with
    | undef => rfl
    | fin q => exact congrArg fin (by ring)
  add_comm a b := by
    cases a with
    | undef => cases b <;> rfl
    | fin qa =>
      cases b with
      | undef => rfl
      | fin qb => exact congrArg fin (by ring)
  nsmul := nsmulRec

/-- `fin` as an additive monoid morphism ℚ →+ FP (used to move finite sums
between the float model and ℚ). -/
def finHom : ℚ →+ FP where
  toFun := fin
  map_zero' := rfl
  map_add' _ _ := rfl

/-- `isFinite`-style test: the code's `!isFinite(x) || isNaN(x)` is exactly
`¬ isFiniteB x`. -/
def isFiniteB : FP → Bool
  | fin _ => true
  | undef => false

/-- Extract the rational value of a finite FP (0 on undef; only used under a
finiteness hypothesis). -/
def toQ : FP → ℚ
  | fin q => q
  | undef => 0

/-- JS `a > b` comparison: false whenever an operand is NaN/Infinity. -/
def gtb : FP → FP → Bool
  | fin a, fin b => decide (b < a)
  | _, _ => false

/-- JS `Math.min`: NaN-propagating. -/
def jsMin : FP → FP → FP
  | fin a, fin b => fin (min a b)
  | _, _ => undef

/-- JS `Math.max`: NaN-propagating. -/
def jsMax : FP → FP → FP
  | fin a, fin b => fin (max a b)
  | _, _ => undef

/-- The code's clamp `Math.max(lo, Math.min(hi, x))`. -/
def clampF (lo hi : ℚ) (x : FP) : FP := jsMax (fin lo) (jsMin (fin hi) x)

/-- Sign of a rational as JS Math.sign would report it (with the two signed
zeros identified, which `===` does anyway). -/
def qsign (q : ℚ) : ℚ := if q < 0 then -1 else if 0 < q then 1 else 0

/-- The code's `Math.sign(a) !== Math.sign(b)`: true whenever either side is
NaN (JS `NaN !== x` is always true). -/
def signNe : FP → FP → Bool
  | fin a, fin b => decide (qsign a ≠ qsign b)
  | _, _ => true

/-- JS `Math.floor`: NaN in, NaN out. -/
def floorF : FP → FP
  | fin q => fin (⌊q⌋ : ℤ)
  | undef => undef

/-- JS Math.sqrt: NaN on negative input, otherwise the model square root
`msqrt`. -/
def sqrtP (msqrt : ℚ → ℚ) : FP → FP
  | fin q => if q < 0 then undef else fin (msqrt q)
  | undef => undef

/-- JS Math.exp on the float model (Math.exp(NaN) = NaN). -/
def expP (mexp : ℚ → ℚ) : FP → FP
  | fin q => fin (mexp q)
  | undef => undef

/-- JS Math.log2: NaN or negative infinity (both `undef`) on non-positive
input. -/
def log2P (mlog2 : ℚ → ℚ) : FP → FP
  | fin q => if q ≤ 0 then undef else fin (mlog2 q)
  | undef => undef

/-- JS Math.pow restricted to how uMAP calls it: `pow(x, 0) = 1` for every
x (including NaN, per JS), `pow(x, 1) = x`; other exponents defer to the
model parameter `mpow`. -/
def powP (mpow : ℚ → ℚ → ℚ) (x : FP) (e : ℚ) : FP :=
  if e = 0 then fin 1
  else match x with
    | fin q => if e = 1 then fin q else fin (mpow q e)
    | undef => undef

end FP

/-- The model parameters standing for the JS math library and the float64
byte view (see the header comment). -/
structure FloatModel where
  mexp : ℚ → ℚ
  msqrt : ℚ → ℚ
  mlog : ℚ → ℚ
  mlog2 : ℚ → ℚ
  mpow : ℚ → ℚ → ℚ
  f64b : ℚ → List ℕ

/- ---------------------------------------------------------------------
   seededRandom.ts
   --------------------------------------------------------------------- -/

/-- The Mulberry32 additive constant 0x6D2B79F5. -/
def mulberryInc : ℕ := 0x6D2B79F5

/-- JS Math.imul: 32-bit multiply (the bit pattern of the int32 result). -/
def imul32 (a b : ℕ) : ℕ := (a * b) % 2 ^ 32

/-- The Mulberry32 output mix applied to the current counter value `s`
(`SeededRandom.next` after the counter increment).  All JS bitwise
operations coerce to 32 bits, so every intermediate is reduced mod 2^32;
the final `>>> 0` and division by 2^32 give a rational in [0, 1). -/
def mulberry (s : ℕ) : ℚ :=
  let t0 := s % 2 ^ 32
  let t1 := imul32 (t0 ^^^ (t0 >>> 15)) (t0 ||| 1)
  let t2 := t1 ^^^ ((t1 + imul32 (t1 ^^^ (t1 >>> 7)) (t1 ||| 61)) % 2 ^ 32)
  ((t2 ^^^ (t2 >>> 14)) : ℚ) / 4294967296

/-- `SeededRandom.next()`: the counter advances by `mulberryInc` (exact in
float64 for any realistic number of draws) and the mixed output is
returned. -/
def srNext (s : ℕ) : ℕ × ℚ := (s + mulberryInc, mulberry (s + mulberryInc))

/-- The k-th draw (0-based) from a `SeededRandom` started at `seed`: the
counter after k+1 calls is `seed + (k+1) * mulberryInc`. -/
def srDraw (seed k : ℕ) : ℚ := mulberry (seed + (k + 1) * mulberryInc)

/-- FNV-1a step of `generateSeed`: `hash ^= byte; hash = imul(hash, prime)`
on 32-bit patterns. -/
def fnvStep (h b : ℕ) : ℕ := imul32 ((h ^^^ b) % 2 ^ 32) 0x01000193

/-- `generateSeed(embeddings)`: FNV-1a over the 8 bytes of every coordinate
in dataset order, starting from the offset basis 0x811C9DC5; `f64b` is the
model of the float64 byte view. -/
def generateSeed (f64b : ℚ → List ℕ) (emb : List (List ℚ)) : ℕ :=
  emb.foldl
    (fun h row => row.foldl (fun hh v => (f64b v).foldl fnvStep hh) h)
    0x811C9DC5

/-- Swap two positions of a list (both always in bounds where used). -/
def listSwap {α : Type} (l : List α) (i j : ℕ) : List α :=
  match l.get? i, l.get? j with
  | some a, some b => (l.set i b).set j a
  | _, _ => l

/-- The Fisher–Yates loop of `seededShuffle`, counting the loop index down
from `i` to 1; each step draws once and swaps positions `i` and
`floor(draw * (i+1))`. -/
def shuffleAux {α : Type} : List α → ℕ → ℕ → List α × ℕ
  | arr, s, 0 => (arr, s)
  | arr, s, i + 1 =>
      let t := srNext s
      let j := (⌊t.2 * ((i : ℚ) + 2)⌋).toNat
      shuffleAux (listSwap arr (i + 1) j) t.1 i

/-- `seededShuffle(array, rng)`: in-place Fisher–Yates from index
`length - 1` down to 1. -/
def seededShuffle {α : Type} (arr : List α) (s : ℕ) : List α × ℕ :=
  shuffleAux arr s (arr.length - 1)

/- ---------------------------------------------------------------------
   Shared data model
   --------------------------------------------------------------------- -/

/-- Modelled from the spec: the Document label type of
src/types/embeddings.ts (the types file is not in the source snapshot);
§3 of the spec: a title string and a body-text string. -/
structure Document where
  title : String
  text : String
deriving DecidableEq

/-- A projected point as produced by all three projectors. -/
structure Point2D where
  x : FP
  y : FP
  title : String
  text : String
  index : ℕ
deriving DecidableEq

/-- Modelled from the spec: the AlgorithmType union
`"auto" | "umap" | "tsne" | "pca"` of src/types/embeddings.ts. -/
inductive AlgorithmType where
  | auto | umap | tsne | pca
deriving DecidableEq

structure TSNEOptions where
  perplexity : Option ℚ := none
  learningRate : Option ℚ := none
  iterations : Option ℕ := none
  earlyExaggeration : Option ℚ := none
  momentum : Option ℚ := none

structure UMAPOptions where
  nNeighbors : Option ℚ := none
  nEpochs : Option ℕ := none
  learningRate : Option ℚ := none
  negativeSampleRate : Option ℕ := none

structure PCAOptions where
  powerIterations : Option ℕ := none

/-- Modelled from the spec: the per-algorithm parameter bundle of
ProjectTo2DOptions (§3 of the spec). `options.params?.umap` etc. -/
structure AlgorithmParams where
  umap : Option UMAPOptions := none
  tsne : Option TSNEOptions := none
  pca : Option PCAOptions := none

structure ProjectTo2DOptions where
  algorithm : AlgorithmType := .auto
  params : Option AlgorithmParams := none

structure ProjectionResult where
  points : List Point2D
  algorithm : String
  timeMs : ℚ
  warning : Option String
deriving DecidableEq

/-- `documents[i]?.title || Document i+1`: JS `||` falls through on a
missing entry and on the empty string. -/
def jsTitle (docs : List Document) (i : ℕ) : String :=
  match docs.get? i with
  | some d => if d.title = "" then "Document " ++ toString (i + 1) else d.title
  | none => "Document " ++ toString (i + 1)

/-- `documents[i]?.text || ''`. -/
def jsText (docs : List Document) (i : ℕ) : String :=
  match docs.get? i with
  | some d => d.text
  | none => ""

/-- Coordinate access `embeddings[i][j]` (always in bounds where used). -/
def vGet (emb : List (List ℚ)) (i j : ℕ) : ℚ := (emb.getD i []).getD j 0

/-- The shared pairwise Euclidean distance entry: 0 on the diagonal (set
directly, without calling sqrt), `Math.sqrt(Σ_d (x_id - x_jd)^2)` off it.
The formula is symmetric, matching the upper-triangle-and-mirror loop. -/
def distQ (M : FloatModel) (emb : List (List ℚ)) (dim i j : ℕ) : ℚ :=
  if i = j then 0
  else M.msqrt (∑ d ∈ Finset.range dim, (vGet emb i d - vGet emb j d) ^ 2)

/-- The final point list: `{x, y, title, text, index: i}` for i in input
order. -/
def mkPoints (docs : List Document) (n : ℕ) (Y : ℕ → FP × FP) : List Point2D :=
  (List.range n).map fun i => ⟨(Y i).1, (Y i).2, jsTitle docs i, jsText docs i, i⟩

/-- The n = 1 short-circuit point shared by tSNE, uMAP and projectTo2D:
origin, label fields from `documents[0]`, index 0. -/
def singlePoint (docs : List Document) : Point2D :=
  ⟨.fin 0, .fin 0, jsTitle docs 0, jsText docs 0, 0⟩

/- ---------------------------------------------------------------------
   tSNE.ts
   --------------------------------------------------------------------- -/

/-- The perplexity default: 5 if n < 30, 10 if n ≤ 100, else
`min(30, n - 1)`. -/
def tsnePerplexity (opts : TSNEOptions) (n : ℕ) : ℚ :=
  opts.perplexity.getD
    (if n < 30 then 5 else if n ≤ 100 then 10 else min 30 ((n : ℚ) - 1))

/-- An unnormalized row entry `exp(-(dist^2) / (2 sigma^2))` of the Gaussian
similarity for point i at bandwidth `sigma` (only used with j ≠ i). -/
def tsneSimRaw (M : FloatModel) (emb : List (List ℚ)) (dim i j : ℕ)
    (sigma : ℚ) : ℚ :=
  M.mexp (-(distQ M emb dim i j * distQ M emb dim i j) / (2 * sigma * sigma))

/-- The Shannon-entropy accumulator of the bandwidth search at `sigma`: the
row is normalized (a division that is NaN when the row sum is 0), and each
`p > 1e-10` contributes `-p * Math.log(p)` (a NaN `p` fails the guard, as in
JS, and contributes nothing). -/
def tsneEntropy (M : FloatModel) (emb : List (List ℚ)) (dim n i : ℕ)
    (sigma : ℚ) : ℚ :=
  let s := ∑ j ∈ (Finset.range n).erase i, tsneSimRaw M emb dim i j sigma
  ∑ j ∈ (Finset.range n).erase i,
    (let p := FP.div (.fin (tsneSimRaw M emb dim i j sigma)) (.fin s)
     if FP.gtb p (.fin (1 / 10000000000)) then
       -(p.toQ * M.mlog p.toQ)
     else 0)

/-- One bisection step of the bandwidth search on the (sigmaLow, sigmaHigh)
pair: the midpoint becomes the new high bound when the entropy exceeds the
target, otherwise the new low bound. -/
def tsneSearchStep (M : FloatModel) (emb : List (List ℚ)) (dim n i : ℕ)
    (targetEntropy : ℚ) (st : ℚ × ℚ) : ℚ × ℚ :=
  let sigma := (st.1 + st.2) / 2
  if targetEntropy < tsneEntropy M emb dim n i sigma then (st.1, sigma)
  else (sigma, st.2)

/-- The bandwidth the code ends up using for point i: the loop runs 50
times from (1e-10, 1000) but uses the `sigma` variable, i.e. the midpoint
computed in the 50th iteration — the midpoint of the bounds after 49
steps. -/
def tsneSigma (M : FloatModel) (emb : List (List ℚ)) (dim n i : ℕ)
    (targetEntropy : ℚ) : ℚ :=
  let st := (tsneSearchStep M emb dim n i targetEntropy)^[49]
    (1 / 10000000000, 1000)
  (st.1 + st.2) / 2

/-- The row sum of the final unnormalized similarities for point i. -/
def tsneRowSum (M : FloatModel) (emb : List (List ℚ)) (dim n i : ℕ)
    (targetEntropy : ℚ) : ℚ :=
  ∑ j ∈ (Finset.range n).erase i,
    tsneSimRaw M emb dim i j (tsneSigma M emb dim n i targetEntropy)

/-- The final state of `similarities[i][j]`: 0 on the diagonal (set at
initialization and skipped by every loop), otherwise the final row entry
divided by its row sum (NaN when the row sum is 0, e.g. after float
underflow of every exponential). -/
def tsneCond (M : FloatModel) (emb : List (List ℚ)) (dim n : ℕ)
    (targetEntropy : ℚ) (i j : ℕ) : FP :=
  if i = j then .fin 0
  else
    FP.div
      (.fin (tsneSimRaw M emb dim i j (tsneSigma M emb dim n i targetEntropy)))
      (.fin (tsneRowSum M emb dim n i targetEntropy))

/-- The symmetrized joint probabilities
`P_ij = (p_(j given i) + p_(i given j)) / (2n)`, diagonal 0. -/
def tsneP (M : FloatModel) (emb : List (List ℚ)) (dim n : ℕ)
    (targetEntropy : ℚ) (i j : ℕ) : FP :=
  if i = j then .fin 0
  else
    (tsneCond M emb dim n targetEntropy i j +
      tsneCond M emb dim n targetEntropy j i) / .fin (2 * (n : ℚ))

/-- The seeded initial 2D layout shared in shape by tSNE and uMAP: point i
gets draws 2i and 2i+1, each mapped to `(draw - 0.5) * 0.01`. -/
def initLayout (seed : ℕ) : ℕ → FP × FP := fun i =>
  (.fin ((srDraw seed (2 * i) - 1 / 2) * (1 / 100)),
   .fin ((srDraw seed (2 * i + 1) - 1 / 2) * (1 / 100)))

/-- The gradient-descent state of tSNE: the layout `Y`, the step buffer
`YStep`, the per-dimension `gains`, and the cursor of consumed
Math.random() draws (`ext` is consulted only on a non-finite reset). -/
structure TsneState where
  Y : ℕ → FP × FP
  step : ℕ → FP × FP
  gains : ℕ → ℚ × ℚ
  cursor : ℕ

/-- The (unnormalized) Student-t similarity `1 / (1 + dist²)` between the
current layout positions of i and j (diagonal left at its initial 0). -/
def tsneQraw (Y : ℕ → FP × FP) (i j : ℕ) : FP :=
  if i = j then .fin 0
  else
    let dx := (Y i).1 - (Y j).1
    let dy := (Y i).2 - (Y j).2
    FP.div (.fin 1) (.fin 1 + (dx * dx + dy * dy))

/-- The upper-triangle index pairs the code iterates over. -/
def pairsLT (n : ℕ) : Finset (ℕ × ℕ) :=
  (Finset.range n ×ˢ Finset.range n).filter fun p => p.1 < p.2

/-- `sumQ`: the sum of the Student-t similarities over the upper
triangle. -/
def tsneSumQ (n : ℕ) (Y : ℕ → FP × FP) : FP :=
  ∑ p ∈ pairsLT n, tsneQraw Y p.1 p.2

/-- The normalized Q matrix (diagonal stays at its unnormalized 0). -/
def tsneQn (n : ℕ) (Y : ℕ → FP × FP) (i j : ℕ) : FP :=
  if i = j then .fin 0 else FP.div (tsneQraw Y i j) (tsneSumQ n Y)

/-- The gradient accumulated for point i:
`Σ_{j ≠ i} (exaggeration·P_ij − Q_ij) · (y_i − y_j)` per coordinate. -/
def tsneGrad (n : ℕ) (P Qn : ℕ → ℕ → FP) (exagg : ℚ) (Y : ℕ → FP × FP)
    (i : ℕ) : FP × FP :=
  (∑ j ∈ (Finset.range n).erase i,
     (FP.fin exagg * P i j - Qn i j) * ((Y i).1 - (Y j).1),
   ∑ j ∈ (Finset.range n).erase i,
     (FP.fin exagg * P i j - Qn i j) * ((Y i).2 - (Y j).2))

/-- The tail of the per-point update, after the new gains and the clamped
step have been computed: move the position and either clamp it to ±1000
(finite case) or reset it from two Math.random() draws (non-finite case;
the step buffer keeps its possibly non-finite value, as in the source). -/
def tsneApplyMove (ext : ℕ → ℚ) (i : ℕ) (s : TsneState) (ng : ℚ × ℚ)
    (sx sy : FP) : TsneState :=
  let nx := (s.Y i).1 + sx
  let ny := (s.Y i).2 + sy
  if nx.isFiniteB && ny.isFiniteB then
    { Y := Function.update s.Y i (FP.clampF (-1000) 1000 nx,
                                  FP.clampF (-1000) 1000 ny)
      step := Function.update s.step i (sx, sy)
      gains := Function.update s.gains i ng
      cursor := s.cursor }
  else
    { Y := Function.update s.Y i
        (.fin ((ext s.cursor - 1 / 2) * (1 / 100)),
         .fin ((ext (s.cursor + 1) - 1 / 2) * (1 / 100)))
      step := Function.update s.step i (sx, sy)
      gains := Function.update s.gains i ng
      cursor := s.cursor + 2 }

/-- The per-point position update: gains via the sign-comparison rule, the
momentum step clamped to ±50, then the move applied via `tsneApplyMove`. -/
def tsneUpdatePoint (ext : ℕ → ℚ) (eta cm : ℚ) (g : FP × FP) (i : ℕ)
    (s : TsneState) : TsneState :=
  let og := s.gains i
  let os := s.step i
  let ngx : ℚ :=
    if FP.signNe g.1 os.1 then og.1 + 1 / 5 else max (og.1 * (4 / 5)) (1 / 100)
  let ngy : ℚ :=
    if FP.signNe g.2 os.2 then og.2 + 1 / 5 else max (og.2 * (4 / 5)) (1 / 100)
  let sx := FP.clampF (-50) 50 (.fin cm * os.1 - .fin (eta * ngx) * g.1)
  let sy := FP.clampF (-50) 50 (.fin cm * os.2 - .fin (eta * ngy) * g.2)
  tsneApplyMove ext i s (ngx, ngy) sx sy

/-- Recenter the layout: subtract the coordinate means (over the n live
points) from every live point. -/
def tsneRecenter (n : ℕ) (Y : ℕ → FP × FP) : ℕ → FP × FP :=
  let mx := (∑ i ∈ Finset.range n, (Y i).1) / FP.fin (n : ℚ)
  let my := (∑ i ∈ Finset.range n, (Y i).2) / FP.fin (n : ℚ)
  fun i => if i < n then ((Y i).1 - mx, (Y i).2 - my) else Y i

/-- One gradient-descent iteration: Q from the current layout, the phase
dependent exaggeration and momentum, all gradients from the pre-update
layout, the sequential per-point updates (threading the Math.random cursor),
then recentering. -/
def tsneIter (n : ℕ) (P : ℕ → ℕ → FP) (eta momentum earlyEx : ℚ)
    (ext : ℕ → ℚ) (s : TsneState) (iter : ℕ) : TsneState :=
  let Qn := tsneQn n s.Y
  let exagg := if iter < (if n < 200 then 350 else 250) then earlyEx else 1
  let cm := if iter < 20 then 1 / 2 else momentum
  let g := fun i => tsneGrad n P Qn exagg s.Y i
  let s2 := (List.range n).foldl
    (fun st i => tsneUpdatePoint ext eta cm (g i) i st) s
  { s2 with Y := tsneRecenter n s2.Y }

/-- The full optimization: seeded initial layout, unit gains, zero steps,
then `iterations` iterations (default 1500 if n < 200 else 1000). -/
def tsneFinal (emb : List (List ℚ)) (opts : TSNEOptions) (M : FloatModel)
    (ext : ℕ → ℚ) : TsneState :=
  let n := emb.length
  let dim := (emb.getD 0 []).length
  let targetEntropy := M.mlog (tsnePerplexity opts n)
  let P := tsneP M emb dim n targetEntropy
  let seed := generateSeed M.f64b emb
  let eta := opts.learningRate.getD 500
  let momentum := opts.momentum.getD (4 / 5)
  let earlyEx := opts.earlyExaggeration.getD 4
  let iterations := opts.iterations.getD (if n < 200 then 1500 else 1000)
  let s0 : TsneState :=
    { Y := initLayout seed
      step := fun _ => (.fin 0, .fin 0)
      gains := fun _ => (1, 1)
      cursor := 0 }
  (List.range iterations).foldl
    (fun s it => tsneIter n P eta momentum earlyEx ext s it) s0

/-- `tSNE(embeddings, documents, options)`; `ext` is the Math.random()
stream consumed by the non-finite reset path. -/
def tSNE (emb : List (List ℚ)) (docs : List Document) (opts : TSNEOptions)
    (M : FloatModel) (ext : ℕ → ℚ) : List Point2D :=
  if emb.length = 0 then []
  else if emb.length = 1 then [singlePoint docs]
  else mkPoints docs emb.length (tsneFinal emb opts M ext).Y

/- ---------------------------------------------------------------------
   incrementalPCA.ts
   --------------------------------------------------------------------- -/

/-- The fixed deterministic seed pattern `[1, 0, -1, 0]` cycled across
dimensions. -/
def pcaPattern (i : ℕ) : ℚ := [(1 : ℚ), 0, -1, 0].getD (i % 4) 0

/-- The per-sample mean `mean[j]` (pass 1). -/
def pcaMean (emb : List (List ℚ)) (n j : ℕ) : ℚ :=
  (∑ i ∈ Finset.range n, vGet emb i j) / (n : ℚ)

/-- The centered data `centeredData[i][j] = emb[i][j] - mean[j]` (pass 2). -/
def pcaCentered (emb : List (List ℚ)) (n i j : ℕ) : ℚ :=
  vGet emb i j - pcaMean emb n j

/-- One power-iteration round (pass 3 body): implicit covariance products
for both directions, normalization of pc1, Gram–Schmidt of pc2 against the
updated pc1, then normalization of pc2.  Divisions by a zero norm are the
source's unguarded `1 / 0` (Infinity, hence `undef` here). -/
def pcaStep (M : FloatModel) (emb : List (List ℚ)) (n dim : ℕ)
    (st : (ℕ → FP) × (ℕ → FP)) : (ℕ → FP) × (ℕ → FP) :=
  let dot1 : ℕ → FP := fun i =>
    ∑ j ∈ Finset.range dim, FP.fin (pcaCentered emb n i j) * st.1 j
  let Cpc1 : ℕ → FP := fun j =>
    ∑ i ∈ Finset.range n, FP.fin (pcaCentered emb n i j) * dot1 i
  let inv1 := FP.div (.fin 1)
    (FP.sqrtP M.msqrt (∑ j ∈ Finset.range dim, Cpc1 j * Cpc1 j))
  let pc1 : ℕ → FP := fun j => Cpc1 j * inv1
  let dot2 : ℕ → FP := fun i =>
    ∑ j ∈ Finset.range dim, FP.fin (pcaCentered emb n i j) * st.2 j
  let Cpc2 : ℕ → FP := fun j =>
    ∑ i ∈ Finset.range n, FP.fin (pcaCentered emb n i j) * dot2 i
  let dot12 : FP := ∑ j ∈ Finset.range dim, pc1 j * Cpc2 j
  let Cpc2b : ℕ → FP := fun j => Cpc2 j - dot12 * pc1 j
  let inv2 := FP.div (.fin 1)
    (FP.sqrtP M.msqrt (∑ j ∈ Finset.range dim, Cpc2b j * Cpc2b j))
  (pc1, fun j => Cpc2b j * inv2)

/-- The initial normalized component pair: the cycled pattern (second
vector phase-shifted by one), each divided by the square root of its sum
of squares. -/
def pcaInit (M : FloatModel) (dim : ℕ) : (ℕ → FP) × (ℕ → FP) :=
  let inv1 := FP.div (.fin 1)
    (.fin (M.msqrt (∑ j ∈ Finset.range dim, pcaPattern j * pcaPattern j)))
  let inv2 := FP.div (.fin 1)
    (.fin (M.msqrt
      (∑ j ∈ Finset.range dim, pcaPattern (j + 1) * pcaPattern (j + 1))))
  (fun j => .fin (pcaPattern j) * inv1, fun j => .fin (pcaPattern (j + 1)) * inv2)

/-- `incrementalPCA(embeddings, documents, options)`.  There is no n = 0 or
n = 1 short-circuit in this projector: on the empty dataset
`embeddings[0].length` throws a TypeError, modelled as `none`. -/
def incrementalPCA (emb : List (List ℚ)) (docs : List Document)
    (opts : PCAOptions) (M : FloatModel) : Option (List Point2D) :=
  if emb.length = 0 then none
  else
    let n := emb.length
    let dim := (emb.getD 0 []).length
    let numIterations := opts.powerIterations.getD 20
    let pcs := (pcaStep M emb n dim)^[numIterations] (pcaInit M dim)
    some (mkPoints docs n (fun i =>
      (∑ j ∈ Finset.range dim, FP.fin (pcaCentered emb n i j) * pcs.1 j,
       ∑ j ∈ Finset.range dim, FP.fin (pcaCentered emb n i j) * pcs.2 j)))

/- ---------------------------------------------------------------------
   uMAP.ts
   --------------------------------------------------------------------- -/

/-- The nNeighbors default: `clamp(3, 8, floor(sqrt(n)))` for n < 50,
`floor(10 + sqrt(n - 100) / 3)` for 50 ≤ n < 200 (square root of a
negative number — NaN — when n < 100), else `min(15, floor(n / 50))`. -/
def umapNNDefault (M : FloatModel) (n : ℕ) : FP :=
  if n < 50 then
    FP.jsMax (.fin 3) (FP.jsMin (.fin 8) (FP.floorF (FP.sqrtP M.msqrt (.fin (n : ℚ)))))
  else if n < 200 then
    FP.floorF (.fin 10 + FP.div (FP.sqrtP M.msqrt (.fin ((n : ℚ) - 100))) (.fin 3))
  else FP.jsMin (.fin 15) (FP.floorF (.fin ((n : ℚ) / 50)))

/-- The resolved neighbor count `options?.nNeighbors ?? default`. -/
def umapNN (opts : UMAPOptions) (M : FloatModel) (n : ℕ) : FP :=
  match opts.nNeighbors with
  | some q => .fin q
  | none => umapNNDefault M n

/-- JS ToIntegerOrInfinity on a finite number: truncation toward zero. -/
def jsToInt (q : ℚ) : ℤ := if q < 0 then ⌈q⌉ else ⌊q⌋

/-- The length of `list.slice(0, k)` for a list of length `len` under JS
semantics: NaN coerces to 0, a negative end counts from the end, and the
result is clamped to [0, len]. -/
def sliceCount (len : ℕ) (k : FP) : ℕ :=
  match k with
  | .undef => 0
  | .fin q =>
      let e := jsToInt q
      if e < 0 then ((len : ℤ) + e).toNat else min e.toNat len

/-- A candidate neighbor: its index and its distance. -/
structure Nbr where
  idx : ℕ
  dist : ℚ
deriving DecidableEq

/-- Stable insertion of a candidate into an ascending-by-distance list:
placed after every earlier candidate of equal distance. -/
def insertNbr (x : Nbr) : List Nbr → List Nbr
  | [] => [x]
  | y :: ys => if x.dist < y.dist then x :: y :: ys else y :: insertNbr x ys

/-- Stable ascending sort by distance, modelling the (stable) JS
`Array.sort((a, b) => a.dist - b.dist)`: candidates are inserted in their
original order, each landing after earlier equals. -/
def sortNbrs (l : List Nbr) : List Nbr :=
  l.foldl (fun acc x => insertNbr x acc) []

/-- The k-nearest-neighbor list of point i: all other points paired with
their distances, sorted ascending, then `slice(0, min(nNeighbors, n-1))`
(an empty slice when the neighbor count is NaN). -/
def umapKnn (M : FloatModel) (emb : List (List ℚ)) (opts : UMAPOptions)
    (i : ℕ) : List Nbr :=
  let n := emb.length
  let dim := (emb.getD 0 []).length
  let cands := ((List.range n).filter (fun j => j ≠ i)).map
    (fun j => Nbr.mk j (distQ M emb dim i j))
  let k := FP.jsMin (umapNN opts M n) (.fin (cands.length : ℚ))
  (sortNbrs cands).take (sliceCount (sortNbrs cands).length k)

/-- One bisection step of the uMAP bandwidth search: the candidate sum is
`Σ_k exp(-dist_k / sigma)` over the neighbor list; a NaN target (from
`log2(NaN)`) makes the comparison false, so the low bound is raised, as in
JS. -/
def umapSearchStep (M : FloatModel) (nbrs : List Nbr) (target : FP)
    (st : ℚ × ℚ) : ℚ × ℚ :=
  let sigma := (st.1 + st.2) / 2
  let s := (nbrs.map (fun nb => M.mexp (-nb.dist / sigma))).sum
  if FP.gtb (.fin s) target then (st.1, sigma) else (sigma, st.2)

/-- The per-point bandwidth: 50 bisection steps from (1e-10, 1000), then
the midpoint of the final bounds (unlike tSNE, taken after the loop). -/
def umapSigma (M : FloatModel) (nbrs : List Nbr) (target : FP) : ℚ :=
  let st := (umapSearchStep M nbrs target)^[50] (1 / 10000000000, 1000)
  (st.1 + st.2) / 2

/-- The probabilistic-OR combiner of the fuzzy-set symmetrization:
`existing + p - existing * p`. -/
def orC (a p : ℚ) : ℚ := a + p - a * p

/-- The undirected pair key the code encodes as the string `"i-j"` with the
smaller index first. -/
def pairKey (i j : ℕ) : ℕ × ℕ := if i < j then (i, j) else (j, i)

/-- All directed neighbor relations in iteration order, each carrying its
key and its membership strength `exp(-dist / sigma_i)`. -/
def umapRelations (M : FloatModel) (emb : List (List ℚ))
    (opts : UMAPOptions) : List ((ℕ × ℕ) × ℚ) :=
  let n := emb.length
  let target := FP.log2P M.mlog2 (umapNN opts M n)
  (List.range n).flatMap fun i =>
    let nbrs := umapKnn M emb opts i
    let sigma := umapSigma M nbrs target
    nbrs.map fun nb => (pairKey i nb.idx, M.mexp (-nb.dist / sigma))

/-- Lookup in the association-list model of the JS `Map` (`get(key) || 0`). -/
def alGet (g : List ((ℕ × ℕ) × ℚ)) (k : ℕ × ℕ) : ℚ :=
  ((g.find? (fun e => e.1 = k)).map (fun e => e.2)).getD 0

/-- `Map.set`: replace the value of an existing key in place, otherwise
append (preserving JS Map iteration order). -/
def alSet (g : List ((ℕ × ℕ) × ℚ)) (k : ℕ × ℕ) (v : ℚ) :
    List ((ℕ × ℕ) × ℚ) :=
  if g.any (fun e => e.1 = k) then
    g.map (fun e => if e.1 = k then (k, v) else e)
  else g ++ [(k, v)]

/-- The fuzzy simplicial graph: every directed relation is folded in with
the probabilistic OR against the current value of its undirected key. -/
def umapGraph (M : FloatModel) (emb : List (List ℚ)) (opts : UMAPOptions) :
    List ((ℕ × ℕ) × ℚ) :=
  (umapRelations M emb opts).foldl
    (fun g r => alSet g r.1 (orC (alGet g r.1) r.2)) []

/-- A retained graph edge. -/
structure Edge where
  source : ℕ
  target : ℕ
  weight : ℚ
deriving DecidableEq

/-- The edges kept from the graph: entries with weight > 0, in Map
iteration order, source and target recovered from the key. -/
def umapEdges (M : FloatModel) (emb : List (List ℚ)) (opts : UMAPOptions) :
    List Edge :=
  (umapGraph M emb opts).filterMap fun e =>
    if 0 < e.2 then some ⟨e.1.1, e.1.2, e.2⟩ else none

/-- The optimization state of one uMAP run: the shuffled edge-index
permutation (persistent across epochs), the layout, and the RNG counter. -/
structure UmapState where
  idxs : List ℕ
  Y : ℕ → FP × FP
  rng : ℕ

/-- The negative-sampling inner loop for the source endpoint j of an edge:
each round draws `floor(rng() * n)`, skips it if it hits either edge
endpoint, else applies the repulsive update (denominator guarded by +0.001)
scaled by alpha and the edge weight to j and the sample symmetrically. -/
def umapNegLoop (mpow : ℚ → ℚ → ℚ) (n : ℕ) (alpha w : ℚ) (j k : ℕ) :
    ℕ → (ℕ → FP × FP) × ℕ → (ℕ → FP × FP) × ℕ
  | 0, yr => yr
  | m + 1, yr =>
      let t := srNext yr.2
      let negIdx := (⌊t.2 * (n : ℚ)⌋).toNat
      let yr2 :=
        if negIdx = j ∨ negIdx = k then (yr.1, t.1)
        else
          let Y := yr.1
          let cds := ((Y j).1 - (Y negIdx).1) * ((Y j).1 - (Y negIdx).1) +
            ((Y j).2 - (Y negIdx).2) * ((Y j).2 - (Y negIdx).2)
          let gc := FP.div (.fin (2 * 1))
            ((.fin (1 / 1000) + cds) * (.fin 1 + FP.powP mpow cds 1))
          let gradx := gc * ((Y j).1 - (Y negIdx).1)
          let grady := gc * ((Y j).2 - (Y negIdx).2)
          let Y2 := Function.update Y j
            ((Y j).1 + .fin alpha * gradx * .fin w,
             (Y j).2 + .fin alpha * grady * .fin w)
          let Y3 := Function.update Y2 negIdx
            ((Y2 negIdx).1 - .fin alpha * gradx * .fin w,
             (Y2 negIdx).2 - .fin alpha * grady * .fin w)
          (Y3, t.1)
      umapNegLoop mpow n alpha w j k m yr2

/-- Processing one edge: the attractive update (curve exponents a = b = 1,
so `pow(distSq, b-1)` is JS `pow(·, 0) = 1`) pulling both endpoints
together, then the negative-sampling loop for the source endpoint. -/
def umapEdgeStep (mpow : ℚ → ℚ → ℚ) (n negRate : ℕ) (alpha : ℚ)
    (j k : ℕ) (w : ℚ) (yr : (ℕ → FP × FP) × ℕ) : (ℕ → FP × FP) × ℕ :=
  let Y := yr.1
  let cds := ((Y j).1 - (Y k).1) * ((Y j).1 - (Y k).1) +
    ((Y j).2 - (Y k).2) * ((Y j).2 - (Y k).2)
  let gc := FP.div (.fin (-2 * 1 * 1) * FP.powP mpow cds (1 - 1))
    (.fin 1 + FP.powP mpow cds 1)
  let gradx := gc * ((Y j).1 - (Y k).1)
  let grady := gc * ((Y j).2 - (Y k).2)
  let Y2 := Function.update Y j
    ((Y j).1 + .fin alpha * gradx * .fin w,
     (Y j).2 + .fin alpha * grady * .fin w)
  let Y3 := Function.update Y2 k
    ((Y2 k).1 - .fin alpha * gradx * .fin w,
     (Y2 k).2 - .fin alpha * grady * .fin w)
  umapNegLoop mpow n alpha w j k negRate (Y3, yr.2)

/-- One uMAP epoch: re-shuffle the edge permutation with the seeded RNG,
compute the linearly decaying learning rate, then process every edge in
permuted order. -/
def umapEpoch (mpow : ℚ → ℚ → ℚ) (n negRate nEpochs : ℕ) (lr : ℚ)
    (srcs tgts : List ℕ) (ws : List ℚ) (s : UmapState) (epoch : ℕ) :
    UmapState :=
  let sh := seededShuffle s.idxs s.rng
  let alpha := lr * (1 - (epoch : ℚ) / (nEpochs : ℚ))
  let yr := sh.1.foldl
    (fun yr idx =>
      umapEdgeStep mpow n negRate alpha (srcs.getD idx 0) (tgts.getD idx 0)
        (ws.getD idx 0) yr)
    (s.Y, sh.2)
  ⟨sh.1, yr.1, yr.2⟩

/-- The full uMAP optimization: seeded initial layout (the RNG counter
continues past the 2n initialization draws), identity edge permutation,
then `nEpochs` epochs (default 500 if n < 1000 else 200). -/
def umapFinalState (emb : List (List ℚ)) (opts : UMAPOptions)
    (M : FloatModel) : UmapState :=
  let n := emb.length
  let seed := generateSeed M.f64b emb
  let nEpochs := opts.nEpochs.getD (if n < 1000 then 500 else 200)
  let lr := opts.learningRate.getD 1
  let negRate := opts.negativeSampleRate.getD 5
  let edges := umapEdges M emb opts
  let srcs := edges.map (fun e => e.source)
  let tgts := edges.map (fun e => e.target)
  let ws := edges.map (fun e => e.weight)
  let s0 : UmapState :=
    ⟨List.range edges.length, initLayout seed, seed + 2 * n * mulberryInc⟩
  (List.range nEpochs).foldl
    (fun s epoch => umapEpoch M.mpow n negRate nEpochs lr srcs tgts ws s epoch)
    s0

/-- `uMAP(embeddings, documents, options)`. -/
def uMAP (emb : List (List ℚ)) (docs : List Document) (opts : UMAPOptions)
    (M : FloatModel) : List Point2D :=
  if emb.length = 0 then []
  else if emb.length = 1 then [singlePoint docs]
  else mkPoints docs emb.length (umapFinalState emb opts M).Y

/- ---------------------------------------------------------------------
   projectTo2D.ts
   --------------------------------------------------------------------- -/

/-- The algorithm resolution: an explicit request is used as-is; `auto`
selects PCA when n > 8000, else UMAP. -/
def resolveAlgorithm (a : AlgorithmType) (n : ℕ) : AlgorithmType :=
  match a with
  | .auto => if 8000 < n then .pca else .umap
  | x => x

/-- The uppercased algorithm label of the result. -/
def algName (a : AlgorithmType) : String :=
  match a with
  | .auto => "AUTO"
  | .umap => "UMAP"
  | .tsne => "TSNE"
  | .pca => "PCA"

/-- The advisory warning chain: PCA with n ≤ 1000, UMAP with n > 8000,
t-SNE with n > 1000. -/
def warnFor (a : AlgorithmType) (n : ℕ) : Option String :=
  if a = .pca ∧ n ≤ 1000 then
    some ("PCA is recommended for datasets > 8000 samples. Current: " ++
      toString n ++ " samples. Consider using UMAP or t-SNE for better clustering.")
  else if a = .umap ∧ 8000 < n then
    some ("UMAP may be slow for datasets > 8000 samples. Current: " ++
      toString n ++ " samples. Consider using PCA for faster results.")
  else if a = .tsne ∧ 1000 < n then
    some ("t-SNE is recommended for datasets < 1000 samples. Current: " ++
      toString n ++ " samples. Consider using UMAP for better performance.")
  else none

/-- The post-hoc diagnostic scan: how many returned points have a
non-finite coordinate.  The count is only logged by the source; the result
is returned regardless. -/
def nonFiniteCount (pts : List Point2D) : ℕ :=
  (pts.filter (fun p => ¬ (p.x.isFiniteB ∧ p.y.isFiniteB))).length

/-- `projectTo2D(embeddings, documents, options)`.  `elapsed` stands for
the wall-clock `performance.now()` difference around the projector call;
`none` models an exception escaping from the projector (only possible for
incrementalPCA on the empty dataset, which the n = 0 short-circuit already
excludes here).  A missing `options.params?.x` bundle is flattened to the
all-`none` bundle, which the projectors' per-field `??` defaults treat
identically. -/
def projectTo2D (emb : List (List ℚ)) (docs : List Document)
    (opts : ProjectTo2DOptions) (M : FloatModel) (ext : ℕ → ℚ)
    (elapsed : ℚ) : Option ProjectionResult :=
  if emb.length = 0 then some ⟨[], "No data", 0, none⟩
  else if emb.length = 1 then
    some ⟨[singlePoint docs], "Single point", 0, none⟩
  else
    let n := emb.length
    let algorithm := resolveAlgorithm opts.algorithm n
    let warning := warnFor algorithm n
    let uopts := ((opts.params.bind (fun p => p.umap)).getD {})
    let topts := ((opts.params.bind (fun p => p.tsne)).getD {})
    let popts := ((opts.params.bind (fun p => p.pca)).getD {})
    match algorithm with
    | .umap => some ⟨uMAP emb docs uopts M, "UMAP", elapsed, warning⟩
    | .tsne => some ⟨tSNE emb docs topts M ext, "TSNE", elapsed, warning⟩
    | .pca =>
        match incrementalPCA emb docs popts M with
        | some pts => some ⟨pts, "PCA", elapsed, warning⟩
        | none => none
    | .auto => some ⟨uMAP emb docs uopts M, "UMAP", elapsed, warning⟩

/- ---------------------------------------------------------------------
   Concrete model instances used by witnesses and counterexamples.
   Claims hold for every byte model `f64b`, so the witnesses fix an
   arbitrary one; the math-library parameters are chosen to match the
   float64 library on the (few) argument values each concrete run actually
   reaches, as noted at each use.
   --------------------------------------------------------------------- -/

def constBytes : ℚ → List ℕ := fun _ => List.replicate 8 0

/-- A benign model: exp ≡ 1 (positive, in [0,1]), sqrt ≡ 0, log ≡ 0. -/
def M0 : FloatModel := ⟨fun _ => 1, fun _ => 0, fun _ => 0, fun _ => 0,
  fun _ _ => 0, constBytes⟩

/-- The model of the run on `[[0], [10^160]]`: the only squared distance is
10^320, whose float64 square root is 10^160 (exactly representable order of
magnitude; any positive value gives the same run shape), and every
Math.exp argument in that run is below -10^313, where float64 exp
underflows to exactly 0. -/
def Mhuge : FloatModel :=
  ⟨fun _ => 0, fun q => if q = 10 ^ 320 then 10 ^ 160 else 0,
   fun _ => 161 / 100, fun _ => 8 / 5, fun _ _ => 0, constBytes⟩

/-- The model of the run on `[[1, 2, 3]]`: the initial component norms are
sqrt 2 and sqrt 1 (any positive values give the same run shape; after
centering a single point, every later norm is sqrt 0 = 0). -/
def MsqrtPat : FloatModel :=
  ⟨fun _ => 0, fun q => if q = 2 then 3 / 2 else if q = 1 then 1 else 0,
   fun _ => 161 / 100, fun _ => 8 / 5, fun _ _ => 0, constBytes⟩

/-- An all-zeros Math.random() stream. -/
def extZero : ℕ → ℚ := fun _ => 0

/-- A Math.random() stream differing from `extZero` in its first draw. -/
def extHalf : ℕ → ℚ := fun k => if k = 0 then 1 / 2 else 0

/- ---------------------------------------------------------------------
   Helper lemmas
   --------------------------------------------------------------------- -/

theorem mkPoints_length (docs : List Document) (n : ℕ) (Y : ℕ → FP × FP) :
    (mkPoints docs n Y).length = n := by
  simp [mkPoints]

theorem mkPoints_index (docs : List Document) (n : ℕ) (Y : ℕ → FP × FP)
    (i : ℕ) (h : i < n) :
    ((mkPoints docs n Y)[i]?).map Point2D.index = some i := by
  simp [mkPoints, List.getElem?_map, List.getElem?_range, h]

theorem incrementalPCA_of_ne_zero (emb : List (List ℚ))
    (docs : List Document) (opts : PCAOptions) (M : FloatModel)
    (h : emb.length ≠ 0) :
    incrementalPCA emb docs opts M =
      some (mkPoints docs emb.length (fun i =>
        (∑ j ∈ Finset.range (emb.getD 0 []).length,
          FP.fin (pcaCentered emb emb.length i j) *
            ((pcaStep M emb emb.length (emb.getD 0 []).length)^[opts.powerIterations.getD 20] (pcaInit M (emb.getD 0 []).length)).1 j,
         ∑ j ∈ Finset.range (emb.getD 0 []).length,
          FP.fin (pcaCentered emb emb.length i j) *
            ((pcaStep M emb emb.length (emb.getD 0 []).length)^[opts.powerIterations.getD 20] (pcaInit M (emb.getD 0 []).length)).2 j))) := by
  rw [incrementalPCA, if_neg h]

/-- `projectTo2D` in the n ≥ 2 regime, written out per resolved
algorithm. -/
theorem projectTo2D_of_two_le (emb : List (List ℚ)) (docs : List Document)
    (opts : ProjectTo2DOptions) (M : FloatModel) (ext : ℕ → ℚ)
    (elapsed : ℚ) (h : 2 ≤ emb.length) :
    projectTo2D emb docs opts M ext elapsed =
      (match resolveAlgorithm opts.algorithm emb.length with
       | .umap => some ⟨uMAP emb docs ((opts.params.bind (fun p => p.umap)).getD {}) M,
           "UMAP", elapsed, warnFor (resolveAlgorithm opts.algorithm emb.length) emb.length⟩
       | .tsne => some ⟨tSNE emb docs ((opts.params.bind (fun p => p.tsne)).getD {}) M ext,
           "TSNE", elapsed, warnFor (resolveAlgorithm opts.algorithm emb.length) emb.length⟩
       | .pca =>
           (match incrementalPCA emb docs ((opts.params.bind (fun p => p.pca)).getD {}) M with
            | some pts => some ⟨pts, "PCA", elapsed,
                warnFor (resolveAlgorithm opts.algorithm emb.length) emb.length⟩
            | none => none)
       | .auto => some ⟨uMAP emb docs ((opts.params.bind (fun p => p.umap)).getD {}) M,
           "UMAP", elapsed, warnFor (resolveAlgorithm opts.algorithm emb.length) emb.length⟩) := by
  have h0 : emb.length ≠ 0 := by omega
  have h1 : emb.length ≠ 1 := by omega
  rw [projectTo2D, if_neg h0, if_neg h1]

theorem resolveAlgorithm_ne_auto (a : AlgorithmType) (n : ℕ) :
    resolveAlgorithm a n ≠ .auto := by
  cases a <;> simp [resolveAlgorithm] <;> split <;> simp

/- ---------------------------------------------------------------------
   C3: trivial-input short-circuits of the orchestrator
   --------------------------------------------------------------------- -/

/-- C3: For the empty dataset, projectTo2D returns
`{points: [], algorithm: "No data", timeMs: 0}` without invoking any
projector; for a one-element dataset it returns a single point at the
origin, algorithm label "Single point", and timeMs 0, regardless of the
requested algorithm (and of every model parameter and of the measured
elapsed time). -/
theorem claim3_trivial_input_shortcircuits (emb : List (List ℚ))
    (docs : List Document) (opts : ProjectTo2DOptions) (M : FloatModel)
    (ext : ℕ → ℚ) (elapsed : ℚ) :
    (emb.length = 0 →
      projectTo2D emb docs opts M ext elapsed = some ⟨[], "No data", 0, none⟩) ∧
    (emb.length = 1 →
      projectTo2D emb docs opts M ext elapsed =
        some ⟨[singlePoint docs], "Single point", 0, none⟩) := by
  constructor
  · intro h
    rw [projectTo2D, if_pos h]
  · intro h
    rw [projectTo2D, if_neg (by omega), if_pos h]

/-- Witness for C3 at concrete inputs. -/
theorem claim3_witness :
    projectTo2D [] [] {} M0 extZero 5 = some ⟨[], "No data", 0, none⟩ ∧
    projectTo2D [[1, 2, 3]] [⟨"A", "B"⟩] ⟨.pca, none⟩ M0 extZero 7 =
      some ⟨[⟨.fin 0, .fin 0, "A", "B", 0⟩], "Single point", 0, none⟩ := by
  refine ⟨(claim3_trivial_input_shortcircuits [] [] {} M0 extZero 5).1 rfl, ?_⟩
  have h := (claim3_trivial_input_shortcircuits [[1, 2, 3]] [⟨"A", "B"⟩]
    ⟨.pca, none⟩ M0 extZero 7).2 rfl
  rw [h]
  decide

/- ---------------------------------------------------------------------
   C4: algorithm resolution
   --------------------------------------------------------------------- -/

/-- C4: For n ≥ 2, an explicit algorithm request is used exactly (the
result is labeled with that algorithm), and `auto` resolves to PCA iff
n > 8000, else UMAP — so n = 8001 selects PCA and n = 8000 selects
UMAP. -/
theorem claim4_algorithm_selection (emb : List (List ℚ))
    (docs : List Document) (opts : ProjectTo2DOptions) (M : FloatModel)
    (ext : ℕ → ℚ) (elapsed : ℚ) (h : 2 ≤ emb.length) :
    (∃ r, projectTo2D emb docs opts M ext elapsed = some r ∧
       r.algorithm = algName (resolveAlgorithm opts.algorithm emb.length)) ∧
    (∀ a : AlgorithmType, a ≠ .auto → resolveAlgorithm a emb.length = a) ∧
    (∀ m : ℕ, resolveAlgorithm .auto m =
       if 8000 < m then .pca else .umap) := by
  refine ⟨?_, ?_, fun m => rfl⟩
  · rw [projectTo2D_of_two_le emb docs opts M ext elapsed h]
    rcases hr : resolveAlgorithm opts.algorithm emb.length with _ | _ | _ | _
    · exact absurd hr (resolveAlgorithm_ne_auto _ _)
    · exact ⟨_, rfl, rfl⟩
    · exact ⟨_, rfl, rfl⟩
    · obtain ⟨pts, hp⟩ : ∃ pts,
        incrementalPCA emb docs ((opts.params.bind (fun p => p.pca)).getD {}) M = some pts :=
          ⟨_, incrementalPCA_of_ne_zero _ _ _ _ (by omega)⟩
      exact ⟨_, by rw [hp], rfl⟩
  · intro a ha
    cases a with
    | auto => exact absurd rfl ha
    | umap => rfl
    | tsne => rfl
    | pca => rfl

/-- Witness for C4: a concrete n = 2 run resolves "tsne" to itself, and the
auto rule at the 8000/8001 boundary. -/
theorem claim4_witness :
    (∃ r, projectTo2D [[0], [1]] [] ⟨.tsne, none⟩ M0 extZero 3 = some r ∧
       r.algorithm = algName (resolveAlgorithm AlgorithmType.tsne 2)) ∧
    resolveAlgorithm .auto 8001 = .pca ∧
    resolveAlgorithm .auto 8000 = .umap := by
  have h := claim4_algorithm_selection [[0], [1]] [] ⟨.tsne, none⟩ M0 extZero 3
    (by decide)
  refine ⟨h.1, ?_, ?_⟩
  · have := h.2.2 8001
    simpa using this
  · have := h.2.2 8000
    simpa using this

/- ---------------------------------------------------------------------
   C5: advisory warnings
   --------------------------------------------------------------------- -/

theorem warnFor_iff (a : AlgorithmType) (n : ℕ) :
    (∃ s, warnFor a n = some s ∧ s.length ≠ 0) ↔
      ((a = .pca ∧ n ≤ 1000) ∨ (a = .umap ∧ 8000 < n) ∨
        (a = .tsne ∧ 1000 < n)) := by
  unfold warnFor
  split
  · rename_i hc
    simp only [Option.some.injEq]
    constructor
    · intro _
      exact Or.inl hc
    · intro _
      refine ⟨_, rfl, ?_⟩
      simp only [String.length_append]
      have hpos : 0 < "PCA is recommended for datasets > 8000 samples. Current: ".length := by
        decide
      omega
  · split
    · rename_i hn hc
      simp only [Option.some.injEq]
      constructor
      · intro _
        exact Or.inr (Or.inl hc)
      · intro _
        refine ⟨_, rfl, ?_⟩
        simp only [String.length_append]
        have hpos : 0 < "UMAP may be slow for datasets > 8000 samples. Current: ".length := by
          decide
        omega
    · split
      · rename_i hn1 hn2 hc
        simp only [Option.some.injEq]
        constructor
        · intro _
          exact Or.inr (Or.inr hc)
        · intro _
          refine ⟨_, rfl, ?_⟩
          simp only [String.length_append]
          have hpos : 0 < "t-SNE is recommended for datasets < 1000 samples. Current: ".length := by
            decide
          omega
      · rename_i hn1 hn2 hn3
        constructor
        · rintro ⟨s, hs, _⟩
          exact absurd hs (by simp)
        · rintro (hc | hc | hc)
          · exact absurd hc hn1
          · exact absurd hc hn2
          · exact absurd hc hn3

/-- C5: For n ≥ 2, projectTo2D returns a non-empty warning string exactly
when the resolved algorithm is PCA with n ≤ 1000, UMAP with n > 8000, or
t-SNE with n > 1000 (so "pca" at n = 500 warns and "pca" at n = 9000 does
not). -/
theorem claim5_warnings (emb : List (List ℚ)) (docs : List Document)
    (opts : ProjectTo2DOptions) (M : FloatModel) (ext : ℕ → ℚ)
    (elapsed : ℚ) (h : 2 ≤ emb.length) :
    ∃ r, projectTo2D emb docs opts M ext elapsed = some r ∧
      ((∃ s, r.warning = some s ∧ s.length ≠ 0) ↔
        ((resolveAlgorithm opts.algorithm emb.length = .pca ∧ emb.length ≤ 1000) ∨
         (resolveAlgorithm opts.algorithm emb.length = .umap ∧ 8000 < emb.length) ∨
         (resolveAlgorithm opts.algorithm emb.length = .tsne ∧ 1000 < emb.length))) := by
  rw [projectTo2D_of_two_le emb docs opts M ext elapsed h]
  rcases hr : resolveAlgorithm opts.algorithm emb.length with _ | _ | _ | _
  · exact absurd hr (resolveAlgorithm_ne_auto _ _)
  · refine ⟨_, rfl, ?_⟩
    show (∃ s, warnFor AlgorithmType.umap emb.length = some s ∧ s.length ≠ 0) ↔ _
    exact warnFor_iff _ _
  · refine ⟨_, rfl, ?_⟩
    show (∃ s, warnFor AlgorithmType.tsne emb.length = some s ∧ s.length ≠ 0) ↔ _
    exact warnFor_iff _ _
  · obtain ⟨pts, hp⟩ : ∃ pts,
      incrementalPCA emb docs ((opts.params.bind (fun p => p.pca)).getD {}) M = some pts :=
        ⟨_, incrementalPCA_of_ne_zero _ _ _ _ (by omega)⟩
    refine ⟨_, by rw [hp], ?_⟩
    show (∃ s, warnFor AlgorithmType.pca emb.length = some s ∧ s.length ≠ 0) ↔ _
    exact warnFor_iff _ _

/-- Witness for C5: the explicit "pca" request on a 500-element dataset
yields a non-empty warning. -/
theorem claim5_witness :
    ∃ r, projectTo2D (List.replicate 500 [0]) [] ⟨.pca, none⟩ M0 extZero 2 =
        some r ∧ ∃ s, r.warning = some s ∧ s.length ≠ 0 := by
  obtain ⟨r, hr, hiff⟩ := claim5_warnings (List.replicate 500 [0]) []
    ⟨.pca, none⟩ M0 extZero 2 (by simp)
  refine ⟨r, hr, hiff.mpr ?_⟩
  left
  simp [resolveAlgorithm]

/- ---------------------------------------------------------------------
   C2: projector-level trivial-input behavior (corrected)
   --------------------------------------------------------------------- -/

/-- C2 counterexample: incrementalPCA invoked directly on the one-element
dataset `[[1, 2, 3]]` (with one power iteration) does NOT return a point at
(0, 0): it returns a single point with non-finite coordinates (in JS, the
power-iteration normalization divides by a zero norm and the NaNs reach the
output), and its title is the document title, not "Single point". -/
theorem claim2_counterexample :
    incrementalPCA [[1, 2, 3]] [⟨"A", "B"⟩] ⟨some 1⟩ MsqrtPat =
      some [⟨.undef, .undef, "A", "B", 0⟩] ∧
    (FP.undef ≠ FP.fin 0 ∧ "A" ≠ "Single point") := by
  refine ⟨by with_unfolding_all decide, by decide, by decide⟩

/-- C2 amended: tSNE and uMAP do short-circuit: on a one-element dataset
each returns exactly one point at (0, 0) (title and text from the
document, index 0), and on the empty dataset each returns the empty list;
incrementalPCA has no such bypass — on the empty dataset it throws
(modelled `none`), and on a one-element dataset it runs its algorithm and
(as the counterexample shows) returns a non-finite point instead of
(0, 0). -/
theorem claim2_amended_shortcircuits (emb : List (List ℚ))
    (docs : List Document) (topts : TSNEOptions) (uopts : UMAPOptions)
    (popts : PCAOptions) (M : FloatModel) (ext : ℕ → ℚ) :
    (emb.length = 1 →
      tSNE emb docs topts M ext = [singlePoint docs] ∧
      uMAP emb docs uopts M = [singlePoint docs]) ∧
    (emb.length = 0 →
      tSNE emb docs topts M ext = [] ∧
      uMAP emb docs uopts M = [] ∧
      incrementalPCA emb docs popts M = none) := by
  constructor
  · intro h
    constructor
    · rw [tSNE, if_neg (by omega), if_pos h]
    · rw [uMAP, if_neg (by omega), if_pos h]
  · intro h
    refine ⟨?_, ?_, ?_⟩
    · rw [tSNE, if_pos h]
    · rw [uMAP, if_pos h]
    · rw [incrementalPCA, if_pos h]

/-- Witness for C2's amended claim at concrete inputs. -/
theorem claim2_witness :
    tSNE [[5]] [⟨"T", "X"⟩] {} M0 extZero = [⟨.fin 0, .fin 0, "T", "X", 0⟩] ∧
    uMAP [[5]] [⟨"T", "X"⟩] {} M0 = [⟨.fin 0, .fin 0, "T", "X", 0⟩] ∧
    incrementalPCA ([] : List (List ℚ)) [] {} M0 = none := by
  have h1 := (claim2_amended_shortcircuits [[5]] [⟨"T", "X"⟩] {} {} {} M0
    extZero).1 rfl
  have h0 := (claim2_amended_shortcircuits ([] : List (List ℚ)) [] {} {} {}
    M0 extZero).2 rfl
  refine ⟨?_, ?_, h0.2.2⟩
  · rw [h1.1]
    with_unfolding_all decide
  · rw [h1.2]
    with_unfolding_all decide

/- ---------------------------------------------------------------------
   C9: result shape (corrected)
   --------------------------------------------------------------------- -/

/-- C9 counterexample: on the empty dataset, incrementalPCA invoked
directly does not return a points list of length 0 — it throws
(`embeddings[0].length` on `undefined`), modelled as `none`. -/
theorem claim9_counterexample :
    incrementalPCA ([] : List (List ℚ)) [] {} M0 = none ∧
    ¬ ∃ pts, incrementalPCA ([] : List (List ℚ)) [] {} M0 = some pts ∧
        pts.length = 0 := by
  refine ⟨rfl, ?_⟩
  rintro ⟨pts, h, _⟩
  rw [show incrementalPCA ([] : List (List ℚ)) [] {} M0 = none from rfl] at h
  exact Option.noConfusion h

theorem tSNE_shape (emb : List (List ℚ)) (docs : List Document)
    (topts : TSNEOptions) (M : FloatModel) (ext : ℕ → ℚ) :
    (tSNE emb docs topts M ext).length = emb.length ∧
    ∀ i, i < emb.length →
      ((tSNE emb docs topts M ext)[i]?).map Point2D.index = some i := by
  unfold tSNE
  split_ifs with h0 h1
  · rw [h0]
    exact ⟨rfl, fun i hi => absurd hi (by omega)⟩
  · rw [h1]
    refine ⟨rfl, fun i hi => ?_⟩
    interval_cases i
    rfl
  · exact ⟨mkPoints_length _ _ _, fun i hi => mkPoints_index _ _ _ i hi⟩

theorem uMAP_shape (emb : List (List ℚ)) (docs : List Document)
    (uopts : UMAPOptions) (M : FloatModel) :
    (uMAP emb docs uopts M).length = emb.length ∧
    ∀ i, i < emb.length →
      ((uMAP emb docs uopts M)[i]?).map Point2D.index = some i := by
  unfold uMAP
  split_ifs with h0 h1
  · rw [h0]
    exact ⟨rfl, fun i hi => absurd hi (by omega)⟩
  · rw [h1]
    refine ⟨rfl, fun i hi => ?_⟩
    interval_cases i
    rfl
  · exact ⟨mkPoints_length _ _ _, fun i hi => mkPoints_index _ _ _ i hi⟩

/-- C9 amended: every projector that returns at all returns exactly n
points in input order with `points[i].index = i`; incrementalPCA does so
only for n ≥ 1 (on n = 0 it throws, see the counterexample); the
orchestrator always returns n points with the same indexing and, for
n ≥ 2, hands back the resolved projector's points unmodified (the
post-hoc non-finite scan is only logged). -/
theorem claim9_amended_result_shape (emb : List (List ℚ))
    (docs : List Document) (topts : TSNEOptions) (uopts : UMAPOptions)
    (popts : PCAOptions) (opts : ProjectTo2DOptions) (M : FloatModel)
    (ext : ℕ → ℚ) (elapsed : ℚ) :
    ((tSNE emb docs topts M ext).length = emb.length ∧
      ∀ i, i < emb.length →
        ((tSNE emb docs topts M ext)[i]?).map Point2D.index = some i) ∧
    ((uMAP emb docs uopts M).length = emb.length ∧
      ∀ i, i < emb.length →
        ((uMAP emb docs uopts M)[i]?).map Point2D.index = some i) ∧
    (1 ≤ emb.length → ∃ pts, incrementalPCA emb docs popts M = some pts ∧
      pts.length = emb.length ∧
      ∀ i, i < emb.length → (pts[i]?).map Point2D.index = some i) ∧
    (∃ r, projectTo2D emb docs opts M ext elapsed = some r ∧
      r.points.length = emb.length ∧
      ∀ i, i < emb.length → (r.points[i]?).map Point2D.index = some i) ∧
    (2 ≤ emb.length →
      ∃ r, projectTo2D emb docs opts M ext elapsed = some r ∧
        (resolveAlgorithm opts.algorithm emb.length = .umap →
          r.points = uMAP emb docs ((opts.params.bind (fun p => p.umap)).getD {}) M) ∧
        (resolveAlgorithm opts.algorithm emb.length = .tsne →
          r.points = tSNE emb docs ((opts.params.bind (fun p => p.tsne)).getD {}) M ext) ∧
        (resolveAlgorithm opts.algorithm emb.length = .pca →
          incrementalPCA emb docs ((opts.params.bind (fun p => p.pca)).getD {}) M =
            some r.points)) := by
  have hpca : ∀ (po : PCAOptions), 1 ≤ emb.length →
      ∃ pts, incrementalPCA emb docs po M = some pts ∧
        pts.length = emb.length ∧
        ∀ i, i < emb.length → (pts[i]?).map Point2D.index = some i := by
    intro po h1
    rw [incrementalPCA_of_ne_zero emb docs po M (by omega)]
    exact ⟨_, rfl, mkPoints_length _ _ _, fun i hi => mkPoints_index _ _ _ i hi⟩
  refine ⟨tSNE_shape emb docs topts M ext, uMAP_shape emb docs uopts M,
    hpca popts, ?_, ?_⟩
  · by_cases h0 : emb.length = 0
    · rw [projectTo2D, if_pos h0, h0]
      exact ⟨_, rfl, rfl, fun i hi => absurd hi (by omega)⟩
    · by_cases h1 : emb.length = 1
      · rw [projectTo2D, if_neg h0, if_pos h1, h1]
        refine ⟨_, rfl, rfl, fun i hi => ?_⟩
        interval_cases i
        rfl
      · rw [projectTo2D_of_two_le emb docs opts M ext elapsed (by omega)]
        rcases hr : resolveAlgorithm opts.algorithm emb.length with _ | _ | _ | _
        · exact absurd hr (resolveAlgorithm_ne_auto _ _)
        · exact ⟨_, rfl, (uMAP_shape emb docs _ M).1,
            fun i hi => (uMAP_shape emb docs _ M).2 i hi⟩
        · exact ⟨_, rfl, (tSNE_shape emb docs _ M ext).1,
            fun i hi => (tSNE_shape emb docs _ M ext).2 i hi⟩
        · obtain ⟨pts, hp, hlen, hidx⟩ :=
            hpca ((opts.params.bind (fun p => p.pca)).getD {}) (by omega)
          rw [hp]
          exact ⟨_, rfl, hlen, hidx⟩
  · intro h2
    rw [projectTo2D_of_two_le emb docs opts M ext elapsed h2]
    rcases hr : resolveAlgorithm opts.algorithm emb.length with _ | _ | _ | _
    · exact absurd hr (resolveAlgorithm_ne_auto _ _)
    · refine ⟨_, rfl, fun _ => rfl, fun hc => ?_, fun hc => ?_⟩ <;>
        exact absurd hc (by decide)
    · refine ⟨_, rfl, fun hc => ?_, fun _ => rfl, fun hc => ?_⟩ <;>
        exact absurd hc (by decide)
    · obtain ⟨pts, hp, _, _⟩ :=
        hpca ((opts.params.bind (fun p => p.pca)).getD {}) (by omega)
      rw [hp]
      refine ⟨_, rfl, fun hc => ?_, fun hc => ?_, fun _ => rfl⟩ <;>
        exact absurd hc (by decide)

/-- Witness for C9's amended claim at a concrete two-element dataset. -/
theorem claim9_witness :
    ((tSNE [[0], [1]] [] {} M0 extZero).length = 2 ∧
      ((tSNE [[0], [1]] [] {} M0 extZero)[1]?).map Point2D.index = some 1) ∧
    (∃ pts, incrementalPCA [[0], [1]] [] {} M0 = some pts ∧ pts.length = 2) ∧
    (∃ r, projectTo2D [[0], [1]] [] ⟨.pca, none⟩ M0 extZero 1 = some r ∧
      r.points.length = 2) := by
  have h := claim9_amended_result_shape [[0], [1]] [] {} {} {} ⟨.pca, none⟩
    M0 extZero 1
  obtain ⟨pts, hp, hlen, _⟩ := h.2.2.1 (by decide)
  obtain ⟨r, hr, hrlen, _⟩ := h.2.2.2.1
  exact ⟨⟨h.1.1, h.1.2 1 (by decide)⟩, ⟨pts, hp, hlen⟩, ⟨r, hr, hrlen⟩⟩

/- ---------------------------------------------------------------------
   C10: the NaN neighbor-count default for 50 ≤ n < 100
   --------------------------------------------------------------------- -/

theorem foldl_fixed {α β : Type} (f : α → β → α) (a : α) (l : List β)
    (h : ∀ b, f a b = a) : l.foldl f a = a := by
  induction l with
  | nil => rfl
  | cons b t ih => rw [List.foldl_cons, h b, ih]

theorem umapNN_undef (opts : UMAPOptions) (M : FloatModel) (n : ℕ)
    (h1 : 50 ≤ n) (h2 : n < 100) (hopt : opts.nNeighbors = none) :
    umapNN opts M n = .undef := by
  have hq : ((n : ℚ) - 100) < 0 := by
    have : (n : ℚ) < 100 := by exact_mod_cast h2
    linarith
  rw [umapNN, hopt, umapNNDefault, if_neg (by omega), if_pos (by omega)]
  rw [FP.sqrtP, if_pos hq]
  rfl

theorem umapKnn_nil (M : FloatModel) (emb : List (List ℚ))
    (opts : UMAPOptions) (hnn : umapNN opts M emb.length = .undef) (i : ℕ) :
    umapKnn M emb opts i = [] := by
  rw [umapKnn]
  simp only [hnn]
  rfl

theorem umapRelations_nil (M : FloatModel) (emb : List (List ℚ))
    (opts : UMAPOptions) (hnn : umapNN opts M emb.length = .undef) :
    umapRelations M emb opts = [] := by
  rw [umapRelations]
  simp only [umapKnn_nil M emb opts hnn, List.map_nil]
  simp

theorem umapEpoch_nil_idxs (mpow : ℚ → ℚ → ℚ) (n negRate nEpochs : ℕ)
    (lr : ℚ) (srcs tgts : List ℕ) (ws : List ℚ) (Y : ℕ → FP × FP) (rng : ℕ)
    (e : ℕ) :
    umapEpoch mpow n negRate nEpochs lr srcs tgts ws ⟨[], Y, rng⟩ e =
      ⟨[], Y, rng⟩ := by
  rfl

/-- C10: For every dataset with 50 ≤ n < 100 and no explicit nNeighbors
option, uMAP's neighbor-count default `floor(10 + sqrt(n - 100) / 3)` is
NaN (square root of a negative number); consequently every
k-nearest-neighbor list is empty (`slice(0, NaN)`), the fuzzy graph keeps
no edges, the optimization loop performs no updates, and the returned
coordinates are exactly the tiny seeded initial layout values. -/
theorem claim10_nan_neighbor_default (emb : List (List ℚ))
    (docs : List Document) (opts : UMAPOptions) (M : FloatModel)
    (h1 : 50 ≤ emb.length) (h2 : emb.length < 100)
    (hopt : opts.nNeighbors = none) :
    umapNN opts M emb.length = .undef ∧
    (∀ i, umapKnn M emb opts i = []) ∧
    umapEdges M emb opts = [] ∧
    uMAP emb docs opts M =
      mkPoints docs emb.length (initLayout (generateSeed M.f64b emb)) := by
  have hnn := umapNN_undef opts M emb.length h1 h2 hopt
  have hknn := umapKnn_nil M emb opts hnn
  have hrel := umapRelations_nil M emb opts hnn
  have hedges : umapEdges M emb opts = [] := by
    rw [umapEdges, umapGraph, hrel]
    rfl
  refine ⟨hnn, hknn, hedges, ?_⟩
  rw [uMAP, if_neg (by omega), if_neg (by omega)]
  have hfin : umapFinalState emb opts M =
      ⟨[], initLayout (generateSeed M.f64b emb),
        generateSeed M.f64b emb + 2 * emb.length * mulberryInc⟩ := by
    rw [umapFinalState]
    simp only [hedges, List.map_nil, List.length_nil, List.range_zero]
    exact foldl_fixed _ _ _ (fun e => umapEpoch_nil_idxs _ _ _ _ _ _ _ _ _ _ e)
  rw [hfin]

/-- Witness for C10 at a concrete 50-element dataset. -/
theorem claim10_witness :
    umapNN {} M0 (List.replicate 50 [(0 : ℚ)]).length = .undef ∧
    uMAP (List.replicate 50 [(0 : ℚ)]) [] {} M0 =
      mkPoints [] (List.replicate 50 [(0 : ℚ)]).length
        (initLayout (generateSeed M0.f64b (List.replicate 50 [(0 : ℚ)]))) := by
  have h := claim10_nan_neighbor_default (List.replicate 50 [(0 : ℚ)]) [] {}
    M0 (by simp) (by simp) rfl
  exact ⟨h.1, h.2.2.2⟩

/- ---------------------------------------------------------------------
   C6: the symmetrized t-SNE joint probabilities sum to 1
   --------------------------------------------------------------------- -/

theorem tsneRowSum_pos (M : FloatModel) (emb : List (List ℚ)) (dim n i : ℕ)
    (te : ℚ) (hpos : ∀ x, 0 < M.mexp x) (hn : 2 ≤ n) :
    0 < tsneRowSum M emb dim n i te := by
  rw [tsneRowSum]
  apply Finset.sum_pos
  · intro j _
    exact hpos _
  · rcases Nat.lt_or_ge i 1 with hi | hi
    · exact ⟨1, Finset.mem_erase.mpr ⟨by omega, Finset.mem_range.mpr (by omega)⟩⟩
    · exact ⟨0, Finset.mem_erase.mpr ⟨by omega, Finset.mem_range.mpr (by omega)⟩⟩

theorem sum_offDiag_eq (n : ℕ) (G : ℕ × ℕ → ℚ) :
    ∑ p ∈ (Finset.range n ×ˢ Finset.range n).filter (fun p => p.1 ≠ p.2),
      G p =
    ∑ i ∈ Finset.range n, ∑ j ∈ (Finset.range n).erase i, G (i, j) := by
  rw [Finset.sum_filter, Finset.sum_product]
  refine Finset.sum_congr rfl fun i _ => ?_
  have h1 : ∀ y ∈ Finset.range n,
      (if (i, y).1 ≠ (i, y).2 then G (i, y) else 0) =
        if y = i then 0 else G (i, y) := by
    intro y _
    by_cases h : y = i
    · simp [h]
    · simp [h, Ne.symm h]
  rw [Finset.sum_congr rfl h1,
    ← Finset.sum_erase (Finset.range n)
      (show (fun x => if x = i then 0 else G (i, x)) i = 0 from if_pos rfl)]
  refine Finset.sum_congr rfl fun y hy => ?_
  rw [if_neg (Finset.ne_of_mem_erase hy)]

theorem tsneCondRow_sum_one (M : FloatModel) (emb : List (List ℚ))
    (dim n i : ℕ) (te : ℚ) (hpos : ∀ x, 0 < M.mexp x) (hn : 2 ≤ n) :
    ∑ j ∈ (Finset.range n).erase i,
      tsneSimRaw M emb dim i j (tsneSigma M emb dim n i te) /
        tsneRowSum M emb dim n i te = 1 := by
  rw [← Finset.sum_div, ← tsneRowSum]
  exact div_self (ne_of_gt (tsneRowSum_pos M emb dim n i te hpos hn))

/-- C6: After row normalization and symmetrization
`P_ij = (p_(j given i) + p_(i given j)) / (2n)`, the joint probabilities
sum to exactly 1 over all ordered pairs i ≠ j, for every dataset with
n ≥ 2.  The model hypothesis is that the exponential is positive (true of
real exp everywhere; in float64 it can underflow to 0, which is the
"floating tolerance" caveat of the spec — and in that case the row
normalization is NaN, see C1's counterexample input). -/
theorem claim6_joint_probabilities_sum_to_one (M : FloatModel)
    (emb : List (List ℚ)) (dim n : ℕ) (te : ℚ)
    (hpos : ∀ x, 0 < M.mexp x) (hn : 2 ≤ n) :
    ∑ p ∈ (Finset.range n ×ˢ Finset.range n).filter (fun p => p.1 ≠ p.2),
      tsneP M emb dim n te p.1 p.2 = .fin 1 := by
  have hR : ∀ i, tsneRowSum M emb dim n i te ≠ 0 := fun i =>
    ne_of_gt (tsneRowSum_pos M emb dim n i te hpos hn)
  have h2n : (2 * (n : ℚ)) ≠ 0 := by
    have : (0 : ℚ) < n := by exact_mod_cast Nat.lt_of_lt_of_le Nat.zero_lt_two hn
    positivity
  have hcond : ∀ i j, i ≠ j → tsneCond M emb dim n te i j =
      .fin (tsneSimRaw M emb dim i j (tsneSigma M emb dim n i te) /
        tsneRowSum M emb dim n i te) := by
    intro i j hij
    rw [tsneCond, if_neg hij]
    show FP.div _ _ = _
    rw [FP.div, if_neg (hR i)]
  have hP : ∀ p ∈ (Finset.range n ×ˢ Finset.range n).filter
      (fun p => p.1 ≠ p.2),
      tsneP M emb dim n te p.1 p.2 =
        FP.finHom ((tsneSimRaw M emb dim p.1 p.2 (tsneSigma M emb dim n p.1 te) /
            tsneRowSum M emb dim n p.1 te +
          tsneSimRaw M emb dim p.2 p.1 (tsneSigma M emb dim n p.2 te) /
            tsneRowSum M emb dim n p.2 te) / (2 * (n : ℚ))) := by
    rintro ⟨i, j⟩ hp
    have hij : i ≠ j := (Finset.mem_filter.mp hp).2
    rw [tsneP, if_neg hij, hcond i j hij, hcond j i (Ne.symm hij)]
    show FP.div (FP.add _ _) _ = _
    rw [FP.add, FP.div, if_neg h2n]
    rfl
  rw [Finset.sum_congr rfl hP, ← map_sum FP.finHom]
  have hq : ∑ p ∈ (Finset.range n ×ˢ Finset.range n).filter
      (fun p => p.1 ≠ p.2),
      (tsneSimRaw M emb dim p.1 p.2 (tsneSigma M emb dim n p.1 te) /
          tsneRowSum M emb dim n p.1 te +
        tsneSimRaw M emb dim p.2 p.1 (tsneSigma M emb dim n p.2 te) /
          tsneRowSum M emb dim n p.2 te) / (2 * (n : ℚ)) = 1 := by
    rw [← Finset.sum_div, Finset.sum_add_distrib]
    have hA : ∑ p ∈ (Finset.range n ×ˢ Finset.range n).filter
        (fun p => p.1 ≠ p.2),
        tsneSimRaw M emb dim p.1 p.2 (tsneSigma M emb dim n p.1 te) /
          tsneRowSum M emb dim n p.1 te = (n : ℚ) := by
      rw [sum_offDiag_eq]
      have hinner : ∀ i ∈ Finset.range n,
          (∑ j ∈ (Finset.range n).erase i,
            tsneSimRaw M emb dim i j (tsneSigma M emb dim n i te) /
              tsneRowSum M emb dim n i te) = 1 :=
        fun i _ => tsneCondRow_sum_one M emb dim n i te hpos hn
      rw [Finset.sum_congr rfl hinner]
      simp
    have hB : ∑ p ∈ (Finset.range n ×ˢ Finset.range n).filter
        (fun p => p.1 ≠ p.2),
        tsneSimRaw M emb dim p.2 p.1 (tsneSigma M emb dim n p.2 te) /
          tsneRowSum M emb dim n p.2 te = (n : ℚ) := by
      rw [← hA]
      refine Finset.sum_equiv (Equiv.prodComm ℕ ℕ) ?_ ?_
      · rintro ⟨i, j⟩
        simp only [Finset.mem_filter, Finset.mem_product, Equiv.prodComm_apply,
          Prod.swap_prod_mk, ne_eq]
        constructor
        · rintro ⟨⟨h1, h2⟩, h3⟩
          exact ⟨⟨h2, h1⟩, fun hh => h3 (hh.symm)⟩
        · rintro ⟨⟨h1, h2⟩, h3⟩
          exact ⟨⟨h2, h1⟩, fun hh => h3 (hh.symm)⟩
      · rintro ⟨i, j⟩ _
        rfl
    rw [hA, hB]
    field_simp
    ring
  rw [hq]
  rfl

/-- Witness for C6 at a concrete two-point dataset with a positive
exponential model. -/
theorem claim6_witness :
    ∑ p ∈ (Finset.range 2 ×ˢ Finset.range 2).filter (fun p => p.1 ≠ p.2),
      tsneP M0 [[0], [1]] 1 2 (161 / 100) p.1 p.2 = .fin 1 :=
  claim6_joint_probabilities_sum_to_one M0 [[0], [1]] 1 2 (161 / 100)
    (fun _ => one_pos) (by omega)

/- ---------------------------------------------------------------------
   C7: uMAP edge weights lie in (0, 1]
   --------------------------------------------------------------------- -/

theorem orC_bounds (a p : ℚ) (ha0 : 0 ≤ a) (ha1 : a ≤ 1) (hp0 : 0 ≤ p)
    (hp1 : p ≤ 1) : 0 ≤ orC a p ∧ orC a p ≤ 1 := by
  rw [orC]
  constructor <;> nlinarith

theorem alGet_bounds (g : List ((ℕ × ℕ) × ℚ))
    (hg : ∀ e ∈ g, 0 ≤ e.2 ∧ e.2 ≤ 1) (k : ℕ × ℕ) :
    0 ≤ alGet g k ∧ alGet g k ≤ 1 := by
  rw [alGet]
  cases hfind : g.find? (fun e => e.1 = k) with
  | none => exact ⟨le_refl 0, by norm_num⟩
  | some e => exact hg e (List.mem_of_find?_eq_some hfind)

theorem alSet_mem (g : List ((ℕ × ℕ) × ℚ)) (k : ℕ × ℕ) (v : ℚ)
    (x : (ℕ × ℕ) × ℚ) (hx : x ∈ alSet g k v) : x = (k, v) ∨ x ∈ g := by
  rw [alSet] at hx
  split at hx
  · obtain ⟨y, hy, hxy⟩ := List.mem_map.mp hx
    by_cases h : y.1 = k
    · rw [if_pos h] at hxy
      exact Or.inl hxy.symm
    · rw [if_neg h] at hxy
      exact Or.inr (hxy ▸ hy)
  · rcases List.mem_append.mp hx with h | h
    · exact Or.inr h
    · exact Or.inl (List.mem_singleton.mp h)

theorem graph_fold_bounds (rel : List ((ℕ × ℕ) × ℚ)) :
    ∀ g : List ((ℕ × ℕ) × ℚ),
      (∀ e ∈ g, 0 ≤ e.2 ∧ e.2 ≤ 1) → (∀ r ∈ rel, 0 ≤ r.2 ∧ r.2 ≤ 1) →
      ∀ e ∈ rel.foldl (fun g r => alSet g r.1 (orC (alGet g r.1) r.2)) g,
        0 ≤ e.2 ∧ e.2 ≤ 1 := by
  induction rel with
  | nil =>
    intro g hg _ e he
    exact hg e he
  | cons r t ih =>
    intro g hg hrel e he
    rw [List.foldl_cons] at he
    refine ih _ ?_ (fun x hx => hrel x (List.mem_cons_of_mem _ hx)) e he
    intro x hx
    rcases alSet_mem _ _ _ x hx with h | h
    · have hr := hrel r (List.mem_cons_self _ _)
      have ha := alGet_bounds g hg r.1
      have := orC_bounds (alGet g r.1) r.2 ha.1 ha.2 hr.1 hr.2
      rw [h]
      exact this
    · exact hg x h

theorem umapRelations_weight (M : FloatModel) (emb : List (List ℚ))
    (opts : UMAPOptions) (r : (ℕ × ℕ) × ℚ)
    (hr : r ∈ umapRelations M emb opts) : ∃ x, r.2 = M.mexp x := by
  rw [umapRelations] at hr
  obtain ⟨i, _, hi⟩ := List.mem_flatMap.mp hr
  obtain ⟨nb, _, hnb⟩ := List.mem_map.mp hi
  exact ⟨_, (congrArg Prod.snd hnb).symm⟩

/-- C7: Every edge retained in the fuzzy simplicial graph after the
probabilistic-OR symmetrization has weight 0 < w ≤ 1, for every dataset.
The model hypothesis is that the exponential takes values in [0, 1] — true
of float64 Math.exp on the non-positive arguments `-dist/sigma` used here
(including underflow to exactly 0). -/
theorem claim7_edge_weights_in_unit_interval (M : FloatModel)
    (emb : List (List ℚ)) (opts : UMAPOptions)
    (h0 : ∀ x, 0 ≤ M.mexp x) (h1 : ∀ x, M.mexp x ≤ 1) :
    ∀ e ∈ umapEdges M emb opts, 0 < e.weight ∧ e.weight ≤ 1 := by
  intro e he
  rw [umapEdges] at he
  obtain ⟨entry, hmem, hf⟩ := List.mem_filterMap.mp he
  have hb : 0 ≤ entry.2 ∧ entry.2 ≤ 1 := by
    refine graph_fold_bounds (umapRelations M emb opts) [] (by simp) ?_ entry
      (by rw [umapGraph] at hmem; exact hmem)
    intro r hrmem
    obtain ⟨x, hx⟩ := umapRelations_weight M emb opts r hrmem
    rw [hx]
    exact ⟨h0 x, h1 x⟩
  by_cases hpos : 0 < entry.2
  · rw [if_pos hpos] at hf
    obtain rfl : Edge.mk entry.1.1 entry.1.2 entry.2 = e := Option.some.inj hf
    exact ⟨hpos, hb.2⟩
  · rw [if_neg hpos] at hf
    exact Option.noConfusion hf

/-- Witness for C7: the two-point dataset with exp ≡ 1/2 (in [0, 1]) has
the single symmetrized edge (0, 1) with weight 3/4 ∈ (0, 1]. -/
theorem claim7_witness :
    Edge.mk 0 1 (3 / 4) ∈
      umapEdges ⟨fun _ => 1 / 2, fun _ => 0, fun _ => 161 / 100,
        fun _ => 8 / 5, fun _ _ => 0, constBytes⟩ [[0], [1]] {} ∧
    0 < (Edge.mk 0 1 (3 / 4)).weight ∧ (Edge.mk 0 1 (3 / 4)).weight ≤ 1 := by
  have hmem : Edge.mk 0 1 (3 / 4) ∈
      umapEdges ⟨fun _ => 1 / 2, fun _ => 0, fun _ => 161 / 100,
        fun _ => 8 / 5, fun _ _ => 0, constBytes⟩ [[0], [1]] {} := by
    with_unfolding_all decide
  exact ⟨hmem, claim7_edge_weights_in_unit_interval _ [[0], [1]] {}
    (fun _ => by norm_num) (fun _ => by norm_num) _ hmem⟩

/- ---------------------------------------------------------------------
   C8: non-finite recovery during optimization (corrected)
   --------------------------------------------------------------------- -/

theorem FP.fin_toQ (x : FP) (h : x.isFiniteB = true) : x = .fin x.toQ := by
  cases x with
  | fin q => rfl
  | undef => exact absurd h (by simp [FP.isFiniteB])

theorem clampF_isFinite (lo hi : ℚ) (x : FP) (h : x.isFiniteB = true) :
    (FP.clampF lo hi x).isFiniteB = true := by
  cases x with
  | fin q => rfl
  | undef => exact absurd h (by simp [FP.isFiniteB])

theorem tsneApplyMove_self (ext : ℕ → ℚ) (i : ℕ) (s : TsneState)
    (ng : ℚ × ℚ) (sx sy : FP) :
    (((tsneApplyMove ext i s ng sx sy).Y i).1.isFiniteB = true) ∧
    (((tsneApplyMove ext i s ng sx sy).Y i).2.isFiniteB = true) := by
  rw [tsneApplyMove]
  split
  · rename_i hfin
    have h1 := (Bool.and_eq_true _ _).mp hfin
    simp only [Function.update_same]
    exact ⟨clampF_isFinite _ _ _ h1.1, clampF_isFinite _ _ _ h1.2⟩
  · simp only [Function.update_same]
    exact ⟨rfl, rfl⟩

theorem tsneUpdatePoint_self (ext : ℕ → ℚ) (eta cm : ℚ) (g : FP × FP)
    (i : ℕ) (s : TsneState) :
    (((tsneUpdatePoint ext eta cm g i s).Y i).1.isFiniteB = true) ∧
    (((tsneUpdatePoint ext eta cm g i s).Y i).2.isFiniteB = true) :=
  tsneApplyMove_self ext i s _ _ _

theorem tsneApplyMove_other (ext : ℕ → ℚ) (i j : ℕ) (s : TsneState)
    (ng : ℚ × ℚ) (sx sy : FP) (hij : i ≠ j) :
    (tsneApplyMove ext j s ng sx sy).Y i = s.Y i := by
  rw [tsneApplyMove]
  split
  · exact Function.update_noteq hij _ _
  · exact Function.update_noteq hij _ _

theorem tsneUpdatePoint_other (ext : ℕ → ℚ) (eta cm : ℚ) (g : FP × FP)
    (i j : ℕ) (s : TsneState) (hij : i ≠ j) :
    (tsneUpdatePoint ext eta cm g j s).Y i = s.Y i :=
  tsneApplyMove_other ext i j s _ _ _ hij

theorem tsneFold_isFinite (ext : ℕ → ℚ) (eta cm : ℚ) (g : ℕ → FP × FP) :
    ∀ (l : List ℕ) (s : TsneState) (i : ℕ),
      (i ∈ l ∨ (((s.Y i).1.isFiniteB = true) ∧ ((s.Y i).2.isFiniteB = true))) →
      (((l.foldl (fun st j => tsneUpdatePoint ext eta cm (g j) j st) s).Y i).1.isFiniteB = true) ∧
      (((l.foldl (fun st j => tsneUpdatePoint ext eta cm (g j) j st) s).Y i).2.isFiniteB = true) := by
  intro l
  induction l with
  | nil =>
    intro s i h
    rcases h with h | h
    · exact absurd h (List.not_mem_nil i)
    · exact h
  | cons j t ih =>
    intro s i h
    rw [List.foldl_cons]
    by_cases hit : i ∈ t
    · exact ih _ i (Or.inl hit)
    · refine ih _ i (Or.inr ?_)
      rcases h with h | h
      · rcases List.mem_cons.mp h with rfl | h2
        · exact tsneUpdatePoint_self ext eta cm (g i) i s
        · exact absurd h2 hit
      · by_cases hij : i = j
        · subst hij
          exact tsneUpdatePoint_self ext eta cm (g i) i s
        · rw [tsneUpdatePoint_other ext eta cm (g j) i j s hij]
          exact h

theorem sum_isFinite (s : Finset ℕ) (f : ℕ → FP)
    (h : ∀ i ∈ s, (f i).isFiniteB = true) :
    (∑ i ∈ s, f i).isFiniteB = true := by
  have heq : ∀ i ∈ s, f i = FP.finHom ((f i).toQ) :=
    fun i hi => FP.fin_toQ (f i) (h i hi)
  rw [Finset.sum_congr rfl heq, ← map_sum FP.finHom]
  rfl

theorem tsneRecenter_isFinite (n : ℕ) (Y : ℕ → FP × FP)
    (h : ∀ j, j < n → ((Y j).1.isFiniteB = true) ∧ ((Y j).2.isFiniteB = true))
    (i : ℕ) (hi : i < n) :
    (((tsneRecenter n Y) i).1.isFiniteB = true) ∧
    (((tsneRecenter n Y) i).2.isFiniteB = true) := by
  have hn : (n : ℚ) ≠ 0 := by
    have : 0 < n := by omega
    exact_mod_cast Nat.pos_iff_ne_zero.mp this
  have hs1 : (∑ j ∈ Finset.range n, (Y j).1).isFiniteB = true :=
    sum_isFinite _ _ (fun j hj => (h j (Finset.mem_range.mp hj)).1)
  have hs2 : (∑ j ∈ Finset.range n, (Y j).2).isFiniteB = true :=
    sum_isFinite _ _ (fun j hj => (h j (Finset.mem_range.mp hj)).2)
  rw [tsneRecenter]
  simp only [if_pos hi]
  constructor
  · rw [FP.fin_toQ _ hs1, FP.fin_toQ _ (h i hi).1]
    show (FP.sub _ (FP.div _ _)).isFiniteB = true
    rw [FP.div, if_neg hn]
    rfl
  · rw [FP.fin_toQ _ hs2, FP.fin_toQ _ (h i hi).2]
    show (FP.sub _ (FP.div _ _)).isFiniteB = true
    rw [FP.div, if_neg hn]
    rfl

/-- C8 amended: in t-SNE, every point's coordinates are finite again at the
end of every optimization iteration — a point that went non-finite is
reset to a fresh random position (drawn, in the source, from the unseeded
Math.random(), modelled by `ext`) and non-finite coordinates never survive
an iteration; uMAP has no such recovery (see the counterexample: its
epoch update leaves a non-finite coordinate in place and spreads it to the
other endpoint of the edge). -/
theorem claim8_amended_tsne_restores_finiteness (n : ℕ) (P : ℕ → ℕ → FP)
    (eta momentum earlyEx : ℚ) (ext : ℕ → ℚ) (s : TsneState) (iter i : ℕ)
    (hi : i < n) :
    (((tsneIter n P eta momentum earlyEx ext s iter).Y i).1.isFiniteB = true) ∧
    (((tsneIter n P eta momentum earlyEx ext s iter).Y i).2.isFiniteB = true) := by
  rw [tsneIter]
  refine tsneRecenter_isFinite n _ ?_ i hi
  intro j hj
  exact tsneFold_isFinite ext eta _ _ (List.range n) s j
    (Or.inl (List.mem_range.mpr hj))

/-- C8 counterexample: a uMAP epoch applied to a state whose point 0 has
non-finite coordinates (one edge (0, 1) of weight 1/2, no negative
samples) neither resets point 0 nor keeps the non-finiteness from
spreading: after the epoch both endpoints are non-finite. -/
theorem claim8_counterexample :
    (((umapEpoch (fun _ _ => 0) 2 0 1 1 [0] [1] [1 / 2]
        ⟨[0], fun i => if i = 0 then (FP.undef, FP.undef) else (.fin 0, .fin 0), 0⟩
        0).Y 0).1.isFiniteB = false) ∧
    (((umapEpoch (fun _ _ => 0) 2 0 1 1 [0] [1] [1 / 2]
        ⟨[0], fun i => if i = 0 then (FP.undef, FP.undef) else (.fin 0, .fin 0), 0⟩
        0).Y 1).1.isFiniteB = false) := by
  constructor <;> with_unfolding_all decide

/-- Witness for C8's amended theorem: one concrete t-SNE iteration on a
one-point state keeps the point finite. -/
theorem claim8_witness :
    (((tsneIter 1 (fun _ _ => .fin 0) 500 (4 / 5) 4 extZero
        ⟨fun _ => (.fin 0, .fin 0), fun _ => (.fin 0, .fin 0), fun _ => (1, 1), 0⟩
        0).Y 0).1.isFiniteB = true) ∧
    (((tsneIter 1 (fun _ _ => .fin 0) 500 (4 / 5) 4 extZero
        ⟨fun _ => (.fin 0, .fin 0), fun _ => (.fin 0, .fin 0), fun _ => (1, 1), 0⟩
        0).Y 0).2.isFiniteB = true) :=
  claim8_amended_tsne_restores_finiteness 1 (fun _ _ => .fin 0) 500 (4 / 5) 4
    extZero ⟨fun _ => (.fin 0, .fin 0), fun _ => (.fin 0, .fin 0),
      fun _ => (1, 1), 0⟩ 0 0 (by omega)

/- ---------------------------------------------------------------------
   C1: determinism and the external entropy source (corrected)
   --------------------------------------------------------------------- -/

/-- C1 counterexample: on the dataset `[[0], [10^160]]` every Gaussian
similarity underflows to 0 (see `Mhuge`), the row normalization is 0/0 =
NaN, the first gradient step produces non-finite coordinates, and the
reset path draws from Math.random() — so two independent runs with
identical inputs and options (here: two different Math.random() streams)
produce different output coordinates, and the run consumes 4 external
draws. -/
theorem claim1_counterexample :
    tSNE [[0], [10 ^ 160]] [] ⟨none, none, some 1, none, none⟩ Mhuge extZero ≠
      tSNE [[0], [10 ^ 160]] [] ⟨none, none, some 1, none, none⟩ Mhuge extHalf ∧
    (tsneFinal [[0], [10 ^ 160]] ⟨none, none, some 1, none, none⟩ Mhuge
      extZero).cursor = 4 := by
  constructor <;> with_unfolding_all decide

theorem tsneApplyMove_cursor (ext : ℕ → ℚ) (i : ℕ) (s : TsneState)
    (ng : ℚ × ℚ) (sx sy : FP) :
    (tsneApplyMove ext i s ng sx sy).cursor = s.cursor ∨
    (tsneApplyMove ext i s ng sx sy).cursor = s.cursor + 2 := by
  simp only [tsneApplyMove]
  split
  · exact Or.inl rfl
  · exact Or.inr rfl

theorem tsneApplyMove_det (ext ext2 : ℕ → ℚ) (i : ℕ) (s : TsneState)
    (ng : ℚ × ℚ) (sx sy : FP)
    (h : (tsneApplyMove ext i s ng sx sy).cursor = s.cursor) :
    tsneApplyMove ext i s ng sx sy = tsneApplyMove ext2 i s ng sx sy := by
  simp only [tsneApplyMove] at h ⊢
  by_cases hc : (((s.Y i).1 + sx).isFiniteB && ((s.Y i).2 + sy).isFiniteB) = true
  · rw [if_pos hc, if_pos hc]
  · rw [if_neg hc] at h
    simp at h

theorem tsneUpdatePoint_cursor (ext : ℕ → ℚ) (eta cm : ℚ) (g : FP × FP)
    (i : ℕ) (s : TsneState) :
    s.cursor ≤ (tsneUpdatePoint ext eta cm g i s).cursor := by
  rcases tsneApplyMove_cursor ext i s
      (if FP.signNe g.1 (s.step i).1 then (s.gains i).1 + 1 / 5
         else max ((s.gains i).1 * (4 / 5)) (1 / 100),
       if FP.signNe g.2 (s.step i).2 then (s.gains i).2 + 1 / 5
         else max ((s.gains i).2 * (4 / 5)) (1 / 100))
      (FP.clampF (-50) 50 (.fin cm * (s.step i).1 -
        .fin (eta * (if FP.signNe g.1 (s.step i).1 then (s.gains i).1 + 1 / 5
          else max ((s.gains i).1 * (4 / 5)) (1 / 100))) * g.1))
      (FP.clampF (-50) 50 (.fin cm * (s.step i).2 -
        .fin (eta * (if FP.signNe g.2 (s.step i).2 then (s.gains i).2 + 1 / 5
          else max ((s.gains i).2 * (4 / 5)) (1 / 100))) * g.2)) with h | h
  · rw [tsneUpdatePoint, h]
  · rw [tsneUpdatePoint, h]
    omega

theorem tsneUpdatePoint_det (ext ext2 : ℕ → ℚ) (eta cm : ℚ) (g : FP × FP)
    (i : ℕ) (s : TsneState)
    (h : (tsneUpdatePoint ext eta cm g i s).cursor = s.cursor) :
    tsneUpdatePoint ext eta cm g i s = tsneUpdatePoint ext2 eta cm g i s := by
  rw [tsneUpdatePoint] at h ⊢
  exact tsneApplyMove_det ext ext2 i s _ _ _ h

theorem tsneFold_mono (ext : ℕ → ℚ) (eta cm : ℚ) (g : ℕ → FP × FP) :
    ∀ (l : List ℕ) (s : TsneState),
      s.cursor ≤
        ((l.foldl (fun st j => tsneUpdatePoint ext eta cm (g j) j st) s)).cursor := by
  intro l
  induction l with
  | nil => intro s; exact le_refl _
  | cons j t ih =>
    intro s
    rw [List.foldl_cons]
    exact le_trans (tsneUpdatePoint_cursor ext eta cm (g j) j s) (ih _)

theorem tsneFold_det (ext ext2 : ℕ → ℚ) (eta cm : ℚ) (g : ℕ → FP × FP) :
    ∀ (l : List ℕ) (s : TsneState),
      ((l.foldl (fun st j => tsneUpdatePoint ext eta cm (g j) j st) s)).cursor =
        s.cursor →
      l.foldl (fun st j => tsneUpdatePoint ext eta cm (g j) j st) s =
        l.foldl (fun st j => tsneUpdatePoint ext2 eta cm (g j) j st) s := by
  intro l
  induction l with
  | nil => intro s _; rfl
  | cons j t ih =>
    intro s h
    rw [List.foldl_cons] at h ⊢
    have h1 : (tsneUpdatePoint ext eta cm (g j) j s).cursor = s.cursor := by
      have := tsneUpdatePoint_cursor ext eta cm (g j) j s
      have := tsneFold_mono ext eta cm g t (tsneUpdatePoint ext eta cm (g j) j s)
      omega
    have h2 := tsneUpdatePoint_det ext ext2 eta cm (g j) j s h1
    rw [List.foldl_cons, ← h2]
    exact ih _ (by rw [h, ← h1])

theorem tsneIter_cursor (n : ℕ) (P : ℕ → ℕ → FP) (eta momentum earlyEx : ℚ)
    (ext : ℕ → ℚ) (s : TsneState) (iter : ℕ) :
    s.cursor ≤ (tsneIter n P eta momentum earlyEx ext s iter).cursor := by
  rw [tsneIter]
  exact tsneFold_mono ext eta _ _ (List.range n) s

theorem tsneIter_det (n : ℕ) (P : ℕ → ℕ → FP) (eta momentum earlyEx : ℚ)
    (ext ext2 : ℕ → ℚ) (s : TsneState) (iter : ℕ)
    (h : (tsneIter n P eta momentum earlyEx ext s iter).cursor = s.cursor) :
    tsneIter n P eta momentum earlyEx ext s iter =
      tsneIter n P eta momentum earlyEx ext2 s iter := by
  rw [tsneIter] at h ⊢
  rw [tsneFold_det ext ext2 eta _ _ (List.range n) s h]
  rfl

theorem tsneIters_mono (n : ℕ) (P : ℕ → ℕ → FP) (eta momentum earlyEx : ℚ)
    (ext : ℕ → ℚ) :
    ∀ (l : List ℕ) (s : TsneState),
      s.cursor ≤
        ((l.foldl (fun st it => tsneIter n P eta momentum earlyEx ext st it) s)).cursor := by
  intro l
  induction l with
  | nil => intro s; exact le_refl _
  | cons j t ih =>
    intro s
    rw [List.foldl_cons]
    exact le_trans (tsneIter_cursor n P eta momentum earlyEx ext s j) (ih _)

theorem tsneIters_det (n : ℕ) (P : ℕ → ℕ → FP) (eta momentum earlyEx : ℚ)
    (ext ext2 : ℕ → ℚ) :
    ∀ (l : List ℕ) (s : TsneState),
      ((l.foldl (fun st it => tsneIter n P eta momentum earlyEx ext st it) s)).cursor =
        s.cursor →
      l.foldl (fun st it => tsneIter n P eta momentum earlyEx ext st it) s =
        l.foldl (fun st it => tsneIter n P eta momentum earlyEx ext2 st it) s := by
  intro l
  induction l with
  | nil => intro s _; rfl
  | cons j t ih =>
    intro s h
    rw [List.foldl_cons] at h ⊢
    have h1 : (tsneIter n P eta momentum earlyEx ext s j).cursor = s.cursor := by
      have := tsneIter_cursor n P eta momentum earlyEx ext s j
      have := tsneIters_mono n P eta momentum earlyEx ext t
        (tsneIter n P eta momentum earlyEx ext s j)
      omega
    have h2 := tsneIter_det n P eta momentum earlyEx ext ext2 s j h1
    rw [List.foldl_cons, ← h2]
    exact ih _ (by rw [h, ← h1])

/-- C1 amended: the seed is derived from the input data
(`generateSeed(embeddings)`) and PCA and uMAP draw no external entropy at
all, but t-SNE's non-finite reset path draws from the unseeded
Math.random(); therefore two runs with identical input and options are
bit-identical whenever the run consumes no Math.random() draws (no
coordinate ever goes non-finite) — and can differ otherwise, as the
counterexample shows. -/
theorem claim1_amended_determinism_without_resets (emb : List (List ℚ))
    (docs : List Document) (opts : TSNEOptions) (M : FloatModel)
    (ext1 ext2 : ℕ → ℚ)
    (h : (tsneFinal emb opts M ext1).cursor = 0) :
    tSNE emb docs opts M ext1 = tSNE emb docs opts M ext2 := by
  have hfin : tsneFinal emb opts M ext1 = tsneFinal emb opts M ext2 := by
    rw [tsneFinal] at h ⊢
    exact tsneIters_det _ _ _ _ _ ext1 ext2 _ _ h
  rw [tSNE, tSNE, hfin]

/-- Witness for C1's amended theorem: a concrete two-point run (benign
exponential model, one iteration) consumes no Math.random() draws, and its
output is identical under two different Math.random() streams. -/
theorem claim1_witness :
    (tsneFinal [[0], [1]] ⟨none, none, some 1, none, none⟩ M0 extZero).cursor = 0 ∧
    tSNE [[0], [1]] [] ⟨none, none, some 1, none, none⟩ M0 extZero =
      tSNE [[0], [1]] [] ⟨none, none, some 1, none, none⟩ M0 extHalf := by
  have h : (tsneFinal [[0], [1]] ⟨none, none, some 1, none, none⟩ M0
      extZero).cursor = 0 := by
    with_unfolding_all decide
  exact ⟨h, claim1_amended_determinism_without_resets [[0], [1]] []
    ⟨none, none, some 1, none, none⟩ M0 extZero extHalf h⟩
